import Mathlib

/- Verification of the data-preparation core of the wavg visualization
   library (src/main.py): the bar-chart-race preparer
   (Vizu._prepare_bar_chart_race_data), the animated-scatter preparer
   (Vizu._prepare_animated_scatter_data) and the color assigner
   (Vizu._get_colors).  DataFrames are embedded as association-list
   tables over a cell type with an explicit NaN; pandas column
   operations (set_index, reindex, interpolate, ffill, bfill, melt,
   groupby, unique, map) are embedded by their documented semantics on
   that representation. -/

/-- Value stored in one cell of a pandas DataFrame: a string, a rational
number (modelling Python ints and floats exactly), or NaN, the missing
marker. -/
inductive Cell where
  | str (s : String)
  | num (q : ℚ)
  | nan
deriving DecidableEq

/-- One DataFrame row: an association list from column label to cell.
A label absent from the list denotes a NaN entry of that row. -/
abbrev Row := List (String × Cell)

/-- An in-memory DataFrame: the column labels and the rows. -/
structure DataFrame where
  cols : List String
  rows : List Row
deriving DecidableEq

/-- The registry of assigned colors (the self.colors dict of Vizu):
an insertion-ordered association list from group label to color string. -/
abbrev Registry := List (Cell × String)

/-- A Vizu instance: the copied input DataFrame together with the color
registry (Vizu.init stores self.df = df.copy() and self.colors = an
empty dict). -/
structure Session where
  df : DataFrame
  colors : Registry
deriving DecidableEq

/-- Vizu.init on a DataFrame: copies the table and creates the empty
color registry.  (The isinstance check of the source is enforced here
by the type of the argument.) -/
def mkSession (df : DataFrame) : Session :=
  { df := df, colors := [] }

/-- Reading one cell of a row by column label (missing label is NaN). -/
def cellAt (r : Row) (c : String) : Cell :=
  (r.lookup c).getD Cell.nan

/-- Numeric view of a cell, NaN and strings giving none. -/
def cellNum : Cell → Option ℚ
  | Cell.num q => some q
  | _ => none

/-- Whether a cell holds a string. -/
def Cell.isStr : Cell → Bool
  | Cell.str _ => true
  | _ => false

/-- Back from an optional rational to a cell, none becoming NaN. -/
def cellOfOpt : Option ℚ → Cell
  | some q => Cell.num q
  | none => Cell.nan

/-- Positional read in a list of optional values; positions past the end
read as none.  Used for all series built over a time range. -/
def vAt {α : Type} (v : List (Option α)) (i : ℕ) : Option α :=
  v.getD i none

/-- Positional read in a list of cells, past the end reading NaN. -/
def vCell (l : List Cell) (i : ℕ) : Cell :=
  l.getD i Cell.nan

/-- The Python str.isnumeric test used on column labels in line 48 of
main.py, modelled for ASCII labels: nonempty and made of digits only. -/
def pyIsNumeric (s : String) : Bool :=
  !s.data.isEmpty && s.data.all Char.isDigit

/-- Parsing a list of characters as a nonempty run of decimal digits. -/
def digitsToNat (l : List Char) : Option ℕ :=
  if l.isEmpty then none
  else if l.all Char.isDigit then
    some (l.foldl (fun a c => a * 10 + (c.toNat - 48)) 0)
  else none

/-- Parsing a character list as a plain integer literal (optional
leading minus sign followed by decimal digits). -/
def parseIntLitAux : List Char → Option Int
  | [] => none
  | c :: cs =>
    if c = '-' then (digitsToNat cs).map (fun n => -(n : Int))
    else (digitsToNat (c :: cs)).map (fun n => (n : Int))

/-- Parsing a string as a plain integer literal.  This formalizes the
phrase a column label that can be parsed as a plain integer literal. -/
def parseIntLit (s : String) : Option Int :=
  parseIntLitAux s.data

/-- The KeyError raised by pandas when a caller-named field is not a
column of the table, carrying the missing field name. -/
def keyErr (f : String) : String :=
  "KeyError: " ++ f

/- ----------------------------------------------------------------
   Color assigner (Vizu._get_colors, main.py lines 36 to 43).
   ---------------------------------------------------------------- -/

/-- Modelled deterministic seed derivation of random.seed(group): CPython
derives the Mersenne Twister seed from a string label via its bytes
(and their SHA-512 digest) and from a number via its value, the same
label always giving the same seed in every process.  The model keeps
exactly this deterministic dependence on the label value, which is the
property the code relies on, without reproducing the hash constants. -/
def seedOfCell : Cell → ℕ
  | Cell.str s => s.data.foldl (fun a c => a * 256 + c.toNat) 1
  | Cell.num q => 2 * q.num.natAbs * q.den + (if q.num < 0 then 1 else 0)
  | Cell.nan => 0

/-- Modelled draw of random.randint(0, 0xFFFFFF) from the freshly seeded
generator (main.py line 42): a fixed deterministic function of the seed
with values below 2 to the 24. -/
def randColor24 (seed : ℕ) : ℕ :=
  (seed * 1103515245 + 12345) % 16777216

/-- Uppercase hexadecimal digit. -/
def hexDigitChar (n : ℕ) : Char :=
  if n < 10 then Char.ofNat (48 + n) else Char.ofNat (55 + n)

/-- Zero-padded six-digit uppercase hexadecimal rendering, the format
string percent-06X of main.py line 42 applied to a 24-bit value. -/
def hex6 (n : ℕ) : String :=
  ⟨(List.range 6).map (fun i => hexDigitChar (n / 16 ^ (5 - i) % 16))⟩

/-- The color the assigner computes for a label the first time it sees
it: seed from the label, one 24-bit draw, hash-sign plus six uppercase
hex digits. -/
def colorOf (g : Cell) : String :=
  "#" ++ hex6 (randColor24 (seedOfCell g))

/-- The pandas Series.map of the registry dict (main.py line 43): a
label present in the registry maps to its color string, an absent label
maps to NaN. -/
def mapColor (reg : Registry) (g : Cell) : Cell :=
  match reg.lookup g with
  | some c => Cell.str c
  | none => Cell.nan

/-- The for-loop of _get_colors: walk the unique labels in order and
insert a fresh color for each label not yet in the registry. -/
def updateRegistry (reg : Registry) : List Cell → Registry
  | [] => reg
  | g :: gs =>
    updateRegistry (if (reg.lookup g).isSome then reg else reg ++ [(g, colorOf g)]) gs

/-- The pandas Series.unique: distinct values in first-occurrence order
(accumulator form). -/
def uniqueCellsAux : List Cell → List Cell → List Cell
  | acc, [] => acc
  | acc, g :: gs => uniqueCellsAux (if g ∈ acc then acc else acc ++ [g]) gs

/-- The pandas Series.unique: distinct values in first-occurrence order. -/
def uniqueCells (l : List Cell) : List Cell :=
  uniqueCellsAux [] l

/-- Vizu._get_colors (main.py lines 36 to 43) on a table given by its
column labels and rows: reading df of group-field raises a KeyError when
the field is not a column; otherwise the registry grows by one fresh
color per distinct group label not yet registered and each row group
label is mapped through the updated registry. -/
def getColorsDF (reg : Registry) (gf : String) (cols : List String)
    (rows : List Row) : Except String (Registry × List Cell) :=
  if gf ∈ cols then
    let gvals := rows.map (fun r => cellAt r gf)
    let reg2 := updateRegistry reg (uniqueCells gvals)
    Except.ok (reg2, gvals.map (mapColor reg2))
  else Except.error (keyErr gf)

/- ----------------------------------------------------------------
   Interpolation and filling (pandas interpolate, ffill, bfill).
   ---------------------------------------------------------------- -/

/-- Last known value at or before position i of a series of optional
values, with its position. -/
def lastKnownBefore {α : Type} (v : List (Option α)) : ℕ → Option (ℕ × α)
  | 0 => (vAt v 0).map (fun a => (0, a))
  | i + 1 =>
    match vAt v (i + 1) with
    | some a => some (i + 1, a)
    | none => lastKnownBefore v i

/-- First known value of a series, with its position. -/
def firstSomeIdx {α : Type} : List (Option α) → Option (ℕ × α)
  | [] => none
  | some a :: _ => some (0, a)
  | none :: t => (firstSomeIdx t).map (fun ja => (ja.1 + 1, ja.2))

/-- First known value at or after position i of a series, with its
position. -/
def firstKnownFrom {α : Type} (v : List (Option α)) (i : ℕ) : Option (ℕ × α) :=
  (firstSomeIdx (v.drop i)).map (fun ja => (i + ja.1, ja.2))

/-- One position of pandas Series.interpolate with method linear and the
default forward limit direction, values treated as equally spaced: a
known position keeps its value, a gap between two known neighbours is
filled linearly in position, a gap after the last known value carries
that value, and a gap before the first known value stays NaN. -/
def interpAt (v : List (Option ℚ)) (i : ℕ) : Option ℚ :=
  match vAt v i with
  | some a => some a
  | none =>
    match lastKnownBefore v i, firstKnownFrom v i with
    | some ja, some kb =>
      some (ja.2 + (kb.2 - ja.2) * (((i : ℚ) - (ja.1 : ℚ)) / ((kb.1 : ℚ) - (ja.1 : ℚ))))
    | some ja, none => some ja.2
    | none, _ => none

/-- Pandas Series.interpolate with the default arguments used at main.py
lines 51 and 108, positionwise. -/
def interpolateList (v : List (Option ℚ)) : List (Option ℚ) :=
  (List.range v.length).map (interpAt v)

/-- Pandas ffill: every gap takes the last known value before it. -/
def ffillGen {α : Type} (v : List (Option α)) : List (Option α) :=
  (List.range v.length).map (fun i =>
    match vAt v i with
    | some a => some a
    | none => (lastKnownBefore v i).map (fun ja => ja.2))

/-- Pandas bfill: every gap takes the first known value after it. -/
def bfillGen {α : Type} (v : List (Option α)) : List (Option α) :=
  (List.range v.length).map (fun i =>
    match vAt v i with
    | some a => some a
    | none => (firstKnownFrom v i).map (fun ja => ja.2))

/-- The numeric fill chain of the scatter preparer, main.py line 108:
interpolate, then ffill, then bfill. -/
def fillQ (v : List (Option ℚ)) : List (Option ℚ) :=
  bfillGen (ffillGen (interpolateList v))

/- ----------------------------------------------------------------
   Bar-chart-race preparer (main.py lines 45 to 61).
   ---------------------------------------------------------------- -/

/-- The closed integer range from time-start to time-end inclusive
(range(time_start, time_end + 1) of main.py line 47). -/
def allYearsInt (t0 t1 : Int) : List Int :=
  (List.range (t1 + 1 - t0).toNat).map (fun k : ℕ => t0 + (k : Int))

/-- The input columns whose label is numeric (main.py line 48). -/
def originalTimeCols (df : DataFrame) : List String :=
  df.cols.filter pyIsNumeric

/-- The series of one working-table row over the requested range after
selecting the numeric input columns and reindexing onto the range
labels (main.py lines 49 and 50): a range year whose label is an input
numeric column carries that cell's numeric value, any other range year
is initialized unset. -/
def barSeries (df : DataFrame) (t0 t1 : Int) (r : Row) : List (Option ℚ) :=
  (allYearsInt t0 t1).map (fun y =>
    if toString y ∈ originalTimeCols df then cellNum (cellAt r (toString y)) else none)

/-- One molten output row of the bar-race preparer (main.py lines 54 to
59): entity name, group, time as a number, and the value cell. -/
def barLongRow (n g : String) (nm gp : Cell) (y : Int) (v : Option ℚ) : Row :=
  [(n, nm), (g, gp), ("time", Cell.num (y : ℚ)), ("value", cellOfOpt v)]

/-- Column labels of the molten bar-race table before the color column
is attached. -/
def longColsBar (n g : String) : List String :=
  [n, g, "time", "value"]

/-- Attaching the color column (main.py line 60): each row gains a final
color cell. -/
def attachColor (rows : List Row) (colorCol : List Cell) : List Row :=
  List.zipWith (fun r c => r ++ [("color", c)]) rows colorCol

/-- Vizu._prepare_bar_chart_race_data (main.py lines 45 to 61).  The
set_index call raises a KeyError naming a missing name or group field;
selecting the numeric time columns after set_index raises a KeyError
when the name or group field itself has a numeric label (it was
consumed into the index).  Otherwise each row is interpolated over the
requested range, molten to long form (column-major, as pandas melt),
and the color column is attached, growing the session registry. -/
def prepareBarChartRaceData (s : Session) (n g : String) (t0 t1 : Int) :
    Except String (Session × List Row) :=
  if n ∈ s.df.cols then
    if g ∈ s.df.cols then
      if pyIsNumeric n then Except.error (keyErr n)
      else if pyIsNumeric g then Except.error (keyErr g)
      else
        let years := allYearsInt t0 t1
        let keyed := s.df.rows.map (fun r =>
          (cellAt r n, cellAt r g, interpolateList (barSeries s.df t0 t1 r)))
        let longRows := years.enum.flatMap (fun iy =>
          keyed.map (fun kr => barLongRow n g kr.1 kr.2.1 iy.2 (vAt kr.2.2 iy.1)))
        match getColorsDF s.colors g (longColsBar n g) longRows with
        | Except.ok rc =>
          Except.ok ({ df := s.df, colors := rc.1 }, attachColor longRows rc.2)
        | Except.error e => Except.error e
    else Except.error (keyErr g)
  else Except.error (keyErr n)

/- ----------------------------------------------------------------
   Animated-scatter preparer (main.py lines 99 to 111).
   ---------------------------------------------------------------- -/

/-- The numeric time values of the table (the pandas min and max on a
column skip NaN entries and, on label columns, non-numeric cells do not
arise in the numeric aggregation modelled here). -/
def timesOf (df : DataFrame) (tf : String) : List ℚ :=
  df.rows.filterMap (fun r => cellNum (cellAt r tf))

/-- Minimum of a list of rationals. -/
def minQ : List ℚ → Option ℚ
  | [] => none
  | x :: xs =>
    match minQ xs with
    | none => some x
    | some m => some (min x m)

/-- Maximum of a list of rationals. -/
def maxQ : List ℚ → Option ℚ
  | [] => none
  | x :: xs =>
    match maxQ xs with
    | none => some x
    | some m => some (max x m)

/-- The Python int conversion applied to the min and max time (main.py
line 102): truncation toward zero. -/
def truncQ (q : ℚ) : Int :=
  if 0 ≤ q then ⌊q⌋ else ⌈q⌉

/-- Whether the pandas dtype of a column of the table is numeric: a
column holding any string value is an object column, otherwise it is
numeric.  The dtype is a property of the whole column, not of one
entity's sub-table. -/
def dfColNumeric (df : DataFrame) (c : String) : Bool :=
  df.rows.all (fun r => !(cellAt r c).isStr)

/-- The rows of one entity (one group of df.groupby(name_field)), in
input order. -/
def entityRows (df : DataFrame) (nf : String) (nm : Cell) : List Row :=
  df.rows.filter (fun r => decide (cellAt r nf = nm))

/-- The time labels of an entity's sub-table, as raw cells. -/
def timeCells (rows : List Row) (tf : String) : List Cell :=
  rows.map (fun r => cellAt r tf)

/-- Whether a list of cells has a duplicate (pandas reindex refuses an
axis with duplicate labels). -/
def hasDup : List Cell → Bool
  | [] => false
  | x :: xs => xs.contains x || hasDup xs

/-- Pandas reindex label matching for one target integer time: the first
row whose time label equals the integer exactly (numeric equality, so a
float holding an integer value matches; a non-integer time matches no
target label). -/
def matchRow (rows : List Row) (tf : String) (t : Int) : Option Row :=
  rows.find? (fun r => decide (cellNum (cellAt r tf) = some ((t : ℚ))))

/-- The cell series of one column of an entity's sub-table after
reindexing onto the integer time range: an unmatched time yields NaN. -/
def entityCellSeries (rows : List Row) (tf : String) (allT : List Int)
    (c : String) : List Cell :=
  allT.map (fun t =>
    match matchRow rows tf t with
    | some r => cellAt r c
    | none => Cell.nan)

/-- Strip the NaN marker off a cell for object-column filling. -/
def cellNonNan : Cell → Option Cell
  | Cell.nan => none
  | c => some c

/-- The fill chain of main.py line 108 applied to one column series: a
numeric column is interpolated, then forward-filled, then
backward-filled; an object column passes unchanged through interpolate
and is then forward- and backward-filled. -/
def fillSeries (numeric : Bool) (cells : List Cell) : List Cell :=
  if numeric then (fillQ (cells.map cellNum)).map cellOfOpt
  else (bfillGen (ffillGen (cells.map cellNonNan))).map (fun o => o.getD Cell.nan)

/-- The dense block of one entity (one iteration of the loop at main.py
lines 106 to 109, plus its share of the reset_index at line 111): the
reindexed and filled sub-table, one row per integer time of the range,
the time restored as the leading column. -/
def entityBlock (df : DataFrame) (tf nf : String) (allT : List Int)
    (nm : Cell) : Except String (List Row) :=
  let rows := entityRows df nf nm
  if hasDup (timeCells rows tf) then
    Except.error "cannot reindex on an axis with duplicate labels"
  else
    let outCols := df.cols.filter (fun c => decide (c ≠ tf))
    let filled := outCols.map (fun c =>
      (c, fillSeries (dfColNumeric df c) (entityCellSeries rows tf allT c)))
    Except.ok (allT.enum.map (fun it =>
      (tf, Cell.num ((it.2 : ℚ))) :: filled.map (fun cf => (cf.1, vCell cf.2 it.1))))

/-- Concatenation of the entity blocks (pd.concat at main.py line 111),
in the given key order, propagating the first error. -/
def entityBlocks (df : DataFrame) (tf nf : String) (allT : List Int) :
    List Cell → Except String (List Row)
  | [] => Except.ok []
  | nm :: rest =>
    match entityBlock df tf nf allT nm with
    | Except.error e => Except.error e
    | Except.ok b =>
      match entityBlocks df tf nf allT rest with
      | Except.error e => Except.error e
      | Except.ok bs => Except.ok (b ++ bs)

/-- Sort order of pandas groupby keys.  String keys sort
lexicographically and numeric keys by value; a fixed order is chosen
across the two kinds (a mixed-type key column is out of the model). -/
def cellLe : Cell → Cell → Bool
  | Cell.num a, Cell.num b => decide (a ≤ b)
  | Cell.str a, Cell.str b => decide (a ≤ b)
  | Cell.num _, Cell.str _ => true
  | Cell.str _, Cell.num _ => false
  | Cell.nan, _ => true
  | _, Cell.nan => false

/-- Insertion into a sorted list of cells. -/
def insertCellSorted (x : Cell) : List Cell → List Cell
  | [] => [x]
  | y :: ys => if cellLe x y then x :: y :: ys else y :: insertCellSorted x ys

/-- Insertion sort of cells, modelling the sorted iteration order of
pandas groupby. -/
def sortCells : List Cell → List Cell
  | [] => []
  | x :: xs => insertCellSorted x (sortCells xs)

/-- The groupby keys of df.groupby(name_field): the distinct non-NaN
values of the name column, iterated in sorted order. -/
def namesOf (df : DataFrame) (nf : String) : List Cell :=
  sortCells (uniqueCells (((df.rows.map (fun r => cellAt r nf)).filter
    (fun c => decide (c ≠ Cell.nan)))))

/-- Vizu._prepare_animated_scatter_data (main.py lines 99 to 111).
Reading the time column raises a KeyError naming the field when absent;
converting the min or max of an all-missing time column to int raises a
ValueError; the groupby raises a KeyError naming a missing name field.
Otherwise every entity's sub-table is reindexed onto the closed integer
range from the truncated min to the truncated max time, filled, and the
blocks are concatenated in sorted key order. -/
def prepareAnimatedScatterData (df : DataFrame) (tf nf : String) :
    Except String (List Row) :=
  if tf ∈ df.cols then
    match minQ (timesOf df tf), maxQ (timesOf df tf) with
    | some mn, some mx =>
      if nf ∈ df.cols then
        entityBlocks df tf nf (allYearsInt (truncQ mn) (truncQ mx)) (namesOf df nf)
      else Except.error (keyErr nf)
    | _, _ => Except.error "cannot convert float NaN to integer"
  else Except.error (keyErr tf)

/-- Column labels of the scatter preparer's output: the time field
restored first, then the remaining input columns. -/
def scatterLongCols (df : DataFrame) (tf : String) : List String :=
  tf :: df.cols.filter (fun c => decide (c ≠ tf))

/-- The data side of Vizu.create_animated_scatter (main.py lines 122 and
123): prepare the dense table, then attach the color column keyed on
the group field, growing the session registry. -/
def animatedScatterWithColors (s : Session) (tf nf gf : String) :
    Except String (Session × List Row) :=
  match prepareAnimatedScatterData s.df tf nf with
  | Except.error e => Except.error e
  | Except.ok rows =>
    match getColorsDF s.colors gf (scatterLongCols s.df tf) rows with
    | Except.error e => Except.error e
    | Except.ok rc =>
      Except.ok ({ df := s.df, colors := rc.1 }, attachColor rows rc.2)

/-- Removing one column from a table: the label leaves the column list
and every row drops its cells under that label. -/
def dropColumn (df : DataFrame) (c : String) : DataFrame :=
  { cols := df.cols.filter (fun x => decide (x ≠ c)),
    rows := df.rows.map (fun r => r.filter (fun p => decide (p.1 ≠ c))) }

/-- Every entry of a registry carries exactly the color the assigner
computes for its label.  This invariant holds for the empty registry of
a fresh session and is preserved by every color-assigner call. -/
def RegistryWF (reg : Registry) : Prop :=
  ∀ p, p ∈ reg → p.2 = colorOf p.1

/- ----------------------------------------------------------------
   Concrete example tables used by counterexamples and witnesses.
   ---------------------------------------------------------------- -/

/-- Wide bar-race example: one entity A in group X with known values 100
at 1980 and 200 at 2000, plus a non-numeric Notes column. -/
def exBarDf : DataFrame :=
  { cols := ["name", "grp", "1980", "2000", "Notes"],
    rows := [[("name", Cell.str "A"), ("grp", Cell.str "X"),
              ("1980", Cell.num 100), ("2000", Cell.num 200),
              ("Notes", Cell.str "hello")]] }

/-- The bar-race preparer's output rows on the example table over the
requested range 1978 to 2002. -/
def exBarOut : List Row :=
  match prepareBarChartRaceData (mkSession exBarDf) "name" "grp" 1978 2002 with
  | Except.ok p => p.2
  | Except.error _ => []

/-- Wide bar-race example with two distinct entity and group rows. -/
def exBarDf2 : DataFrame :=
  { cols := ["name", "grp", "1980", "1982"],
    rows := [[("name", Cell.str "A"), ("grp", Cell.str "X"),
              ("1980", Cell.num 10), ("1982", Cell.num 30)],
             [("name", Cell.str "B"), ("grp", Cell.str "Y"),
              ("1980", Cell.num 20), ("1982", Cell.num 40)]] }

/-- Long scatter example whose second observation sits at the
non-integer time 2012.5. -/
def exScDf : DataFrame :=
  { cols := ["year", "name", "grp", "x"],
    rows := [[("year", Cell.num 2010), ("name", Cell.str "A"),
              ("grp", Cell.str "S"), ("x", Cell.num 1)],
             [("year", Cell.num (mkRat 4025 2)), ("name", Cell.str "A"),
              ("grp", Cell.str "S"), ("x", Cell.num 9)]] }

/-- The scatter preparer's output rows on the non-integer-time example. -/
def exScOut : List Row :=
  match prepareAnimatedScatterData exScDf "year" "name" with
  | Except.ok rows => rows
  | Except.error _ => []

/-- Long scatter example: entity A with x known as 10 at 2010 and 30 at
2020 and nothing in between. -/
def exScDf2 : DataFrame :=
  { cols := ["year", "name", "grp", "x"],
    rows := [[("year", Cell.num 2010), ("name", Cell.str "A"),
              ("grp", Cell.str "S"), ("x", Cell.num 10)],
             [("year", Cell.num 2020), ("name", Cell.str "A"),
              ("grp", Cell.str "S"), ("x", Cell.num 30)]] }

/-- The scatter preparer's output rows on the two-observation example. -/
def exScOut2 : List Row :=
  match prepareAnimatedScatterData exScDf2 "year" "name" with
  | Except.ok rows => rows
  | Except.error _ => []

/-- Long scatter example whose only observation of entity A sits at the
non-integer time 2010.5, with a numeric measure column x. -/
def exScDf3 : DataFrame :=
  { cols := ["year", "name", "grp", "x"],
    rows := [[("year", Cell.num (mkRat 4021 2)), ("name", Cell.str "A"),
              ("grp", Cell.str "S"), ("x", Cell.num 7)]] }

/-- The scatter preparer's output rows on the single non-integer-time
observation example. -/
def exScOut3 : List Row :=
  match prepareAnimatedScatterData exScDf3 "year" "name" with
  | Except.ok rows => rows
  | Except.error _ => []

/- ----------------------------------------------------------------
   Basic series lemmas.
   ---------------------------------------------------------------- -/

theorem vAt_some_lt {α : Type} {v : List (Option α)} {i : ℕ} {a : α}
    (h : vAt v i = some a) : i < v.length := by
  by_contra hlt
  push_neg at hlt
  unfold vAt at h
  rw [List.getD_eq_getElem?_getD, List.getElem?_eq_none hlt] at h
  simp at h

theorem vAt_beyond {α : Type} {v : List (Option α)} {i : ℕ}
    (h : v.length ≤ i) : vAt v i = none := by
  unfold vAt
  rw [List.getD_eq_getElem?_getD, List.getElem?_eq_none h]
  rfl

theorem vAt_cons_zero {α : Type} (x : Option α) (t : List (Option α)) :
    vAt (x :: t) 0 = x := rfl

theorem vAt_cons_succ {α : Type} (x : Option α) (t : List (Option α)) (j : ℕ) :
    vAt (x :: t) (j + 1) = vAt t j := by
  unfold vAt
  rw [List.getD_cons_succ]

theorem vAt_rangeMap {α : Type} (f : ℕ → Option α) (n i : ℕ) :
    vAt ((List.range n).map f) i = if i < n then f i else none := by
  unfold vAt
  rw [List.getD_eq_getElem?_getD, List.getElem?_map]
  by_cases h : i < n
  · rw [List.getElem?_range h]
    simp [h]
  · rw [List.getElem?_eq_none (by simpa using Nat.le_of_not_lt h)]
    simp [h]

theorem vAt_drop {α : Type} (v : List (Option α)) (i j : ℕ) :
    vAt (v.drop i) j = vAt v (i + j) := by
  unfold vAt
  rw [List.getD_eq_getElem?_getD, List.getD_eq_getElem?_getD, List.getElem?_drop]

theorem lastKnownBefore_none_iff {α : Type} (v : List (Option α)) (i : ℕ) :
    lastKnownBefore v i = none ↔ ∀ j, j ≤ i → vAt v j = none := by
  induction i with
  | zero =>
    unfold lastKnownBefore
    cases h : vAt v 0 with
    | some a =>
      simp only [Option.map_some']
      constructor
      · intro hc
        exact absurd hc (by simp)
      · intro hall
        exact absurd (hall 0 (Nat.le_refl 0)) (by simp [h])
    | none =>
      simp only [Option.map_none']
      constructor
      · intro _ j hj
        have : j = 0 := Nat.le_zero.mp hj
        rw [this]
        exact h
      · intro _
        trivial
  | succ i ih =>
    unfold lastKnownBefore
    cases h : vAt v (i + 1) with
    | some a =>
      simp only []
      constructor
      · intro hc
        exact absurd hc (by simp)
      · intro hall
        exact absurd (hall (i + 1) (Nat.le_refl _)) (by simp [h])
    | none =>
      simp only []
      rw [ih]
      constructor
      · intro hall j hj
        rcases Nat.lt_or_ge j (i + 1) with hlt | hge
        · exact hall j (Nat.lt_succ_iff.mp hlt)
        · have : j = i + 1 := Nat.le_antisymm hj hge
          rw [this]
          exact h
      · intro hall j hj
        exact hall j (Nat.le_succ_of_le hj)

theorem lastKnownBefore_spec {α : Type} {v : List (Option α)} {i j : ℕ} {a : α}
    (h : lastKnownBefore v i = some (j, a)) :
    j ≤ i ∧ vAt v j = some a ∧ ∀ k, j < k → k ≤ i → vAt v k = none := by
  induction i with
  | zero =>
    unfold lastKnownBefore at h
    cases h0 : vAt v 0 with
    | some b =>
      rw [h0] at h
      simp only [Option.map_some', Option.some.injEq, Prod.mk.injEq] at h
      obtain ⟨hj, ha⟩ := h
      subst hj
      subst ha
      exact ⟨Nat.le_refl 0, h0, fun k hk hk0 => absurd (Nat.lt_of_lt_of_le hk hk0) (lt_irrefl 0)⟩
    | none =>
      rw [h0] at h
      simp at h
  | succ i ih =>
    unfold lastKnownBefore at h
    cases h1 : vAt v (i + 1) with
    | some b =>
      rw [h1] at h
      simp only [Option.some.injEq, Prod.mk.injEq] at h
      obtain ⟨hj, ha⟩ := h
      subst hj
      subst ha
      exact ⟨Nat.le_refl _, h1, fun k hk hk1 => by omega⟩
    | none =>
      rw [h1] at h
      simp only [] at h
      obtain ⟨hji, hv, hnone⟩ := ih h
      refine ⟨Nat.le_succ_of_le hji, hv, ?_⟩
      intro k hk hk1
      rcases Nat.lt_or_ge k (i + 1) with hlt | hge
      · exact hnone k hk (Nat.lt_succ_iff.mp hlt)
      · have : k = i + 1 := Nat.le_antisymm hk1 hge
        rw [this]
        exact h1

theorem lastKnownBefore_of {α : Type} {v : List (Option α)} {j : ℕ} {a : α}
    (hj : vAt v j = some a) :
    ∀ i, j ≤ i → (∀ k, j < k → k ≤ i → vAt v k = none) →
      lastKnownBefore v i = some (j, a) := by
  intro i
  induction i with
  | zero =>
    intro hji _
    have : j = 0 := Nat.le_zero.mp hji
    subst this
    unfold lastKnownBefore
    rw [hj]
    rfl
  | succ i ih =>
    intro hji hk
    unfold lastKnownBefore
    rcases Nat.lt_or_ge j (i + 1) with hlt | hge
    · have h1 : vAt v (i + 1) = none := hk (i + 1) hlt (Nat.le_refl _)
      rw [h1]
      exact ih (Nat.lt_succ_iff.mp hlt) (fun k hk1 hk2 => hk k hk1 (Nat.le_succ_of_le hk2))
    · have : j = i + 1 := Nat.le_antisymm hji hge
      subst this
      rw [hj]

theorem lastKnownBefore_self {α : Type} {v : List (Option α)} {i : ℕ} {a : α}
    (h : vAt v i = some a) : lastKnownBefore v i = some (i, a) :=
  lastKnownBefore_of h i (Nat.le_refl i)
    (fun _ hk1 hk2 => absurd (Nat.lt_of_lt_of_le hk1 hk2) (lt_irrefl i))

theorem firstSomeIdx_none_iff {α : Type} (l : List (Option α)) :
    firstSomeIdx l = none ↔ ∀ j, vAt l j = none := by
  induction l with
  | nil =>
    simp only [firstSomeIdx]
    constructor
    · intro _ j
      exact vAt_beyond (Nat.zero_le j)
    · intro _
      trivial
  | cons x t ih =>
    cases x with
    | some a =>
      simp only [firstSomeIdx]
      constructor
      · intro hc
        exact absurd hc (by simp)
      · intro hall
        exact absurd (hall 0) (by simp [vAt_cons_zero])
    | none =>
      simp only [firstSomeIdx, Option.map_eq_none']
      rw [ih]
      constructor
      · intro hall j
        cases j with
        | zero => exact vAt_cons_zero none t
        | succ j => rw [vAt_cons_succ]; exact hall j
      · intro hall j
        have := hall (j + 1)
        rwa [vAt_cons_succ] at this

theorem firstSomeIdx_spec {α : Type} {l : List (Option α)} {j : ℕ} {a : α}
    (h : firstSomeIdx l = some (j, a)) :
    vAt l j = some a ∧ ∀ k, k < j → vAt l k = none := by
  induction l generalizing j with
  | nil => simp [firstSomeIdx] at h
  | cons x t ih =>
    cases x with
    | some b =>
      simp only [firstSomeIdx, Option.some.injEq, Prod.mk.injEq] at h
      obtain ⟨hj, ha⟩ := h
      subst hj
      subst ha
      exact ⟨vAt_cons_zero _ _, fun k hk => absurd hk (Nat.not_lt_zero k)⟩
    | none =>
      simp only [firstSomeIdx, Option.map_eq_some'] at h
      obtain ⟨⟨j', b⟩, hfsi, heq⟩ := h
      simp only [Prod.mk.injEq] at heq
      obtain ⟨hj, ha⟩ := heq
      subst ha
      obtain ⟨hv, hlt⟩ := ih hfsi
      constructor
      · rw [← hj, vAt_cons_succ]
        exact hv
      · intro k hk
        cases k with
        | zero => exact vAt_cons_zero none t
        | succ k =>
          rw [vAt_cons_succ]
          exact hlt k (by omega)

theorem firstSomeIdx_of {α : Type} {l : List (Option α)} {j : ℕ} {a : α}
    (hj : vAt l j = some a) (hk : ∀ k, k < j → vAt l k = none) :
    firstSomeIdx l = some (j, a) := by
  induction l generalizing j with
  | nil =>
    exact absurd hj (by rw [vAt_beyond (Nat.zero_le j)]; simp)
  | cons x t ih =>
    cases j with
    | zero =>
      rw [vAt_cons_zero] at hj
      subst hj
      rfl
    | succ j =>
      have h0 : x = none := by
        have := hk 0 (Nat.succ_pos j)
        rwa [vAt_cons_zero] at this
      subst h0
      rw [vAt_cons_succ] at hj
      have ht : firstSomeIdx t = some (j, a) := by
        refine ih hj ?_
        intro k hkj
        have := hk (k + 1) (by omega)
        rwa [vAt_cons_succ] at this
      simp only [firstSomeIdx, ht, Option.map_some']

theorem firstKnownFrom_none_iff {α : Type} (v : List (Option α)) (i : ℕ) :
    firstKnownFrom v i = none ↔ ∀ k, i ≤ k → vAt v k = none := by
  unfold firstKnownFrom
  rw [Option.map_eq_none', firstSomeIdx_none_iff]
  constructor
  · intro hall k hik
    have := hall (k - i)
    rwa [vAt_drop, Nat.add_sub_cancel' hik] at this
  · intro hall j
    rw [vAt_drop]
    exact hall (i + j) (Nat.le_add_right i j)

theorem firstKnownFrom_spec {α : Type} {v : List (Option α)} {i k : ℕ} {b : α}
    (h : firstKnownFrom v i = some (k, b)) :
    i ≤ k ∧ vAt v k = some b ∧ ∀ m, i ≤ m → m < k → vAt v m = none := by
  unfold firstKnownFrom at h
  rw [Option.map_eq_some'] at h
  obtain ⟨⟨j, b'⟩, hfsi, heq⟩ := h
  simp only [Prod.mk.injEq] at heq
  obtain ⟨hk, hb⟩ := heq
  subst hb
  obtain ⟨hv, hlt⟩ := firstSomeIdx_spec hfsi
  rw [vAt_drop] at hv
  rw [← hk]
  refine ⟨Nat.le_add_right i j, hv, ?_⟩
  intro m him hm
  have := hlt (m - i) (by omega)
  rwa [vAt_drop, Nat.add_sub_cancel' him] at this

theorem firstKnownFrom_of {α : Type} {v : List (Option α)} {i k : ℕ} {b : α}
    (hv : vAt v k = some b) (hik : i ≤ k)
    (hm : ∀ m, i ≤ m → m < k → vAt v m = none) :
    firstKnownFrom v i = some (k, b) := by
  unfold firstKnownFrom
  have hfsi : firstSomeIdx (v.drop i) = some (k - i, b) := by
    refine firstSomeIdx_of ?_ ?_
    · rw [vAt_drop, Nat.add_sub_cancel' hik]
      exact hv
    · intro m hmk
      rw [vAt_drop]
      exact hm (i + m) (Nat.le_add_right i m) (by omega)
  rw [hfsi, Option.map_some']
  congr 1
  simp [Nat.add_sub_cancel' hik]

/- ----------------------------------------------------------------
   Interpolation lemmas.
   ---------------------------------------------------------------- -/

theorem length_interpolateList (v : List (Option ℚ)) :
    (interpolateList v).length = v.length := by
  simp [interpolateList]

theorem vAt_interpolateList {v : List (Option ℚ)} {i : ℕ} (h : i < v.length) :
    vAt (interpolateList v) i = interpAt v i := by
  unfold interpolateList
  rw [vAt_rangeMap]
  simp [h]

theorem interpAt_known {v : List (Option ℚ)} {i : ℕ} {a : ℚ}
    (h : vAt v i = some a) : interpAt v i = some a := by
  unfold interpAt
  rw [h]

theorem interpAt_none_iff (v : List (Option ℚ)) (i : ℕ) :
    interpAt v i = none ↔ lastKnownBefore v i = none := by
  unfold interpAt
  cases h : vAt v i with
  | some a =>
    simp only []
    constructor
    · intro hc
      exact absurd hc (by simp)
    · intro hc
      rw [lastKnownBefore_self h] at hc
      exact absurd hc (by simp)
  | none =>
    cases hl : lastKnownBefore v i with
    | some ja =>
      cases hf : firstKnownFrom v i <;> simp
    | none => simp

theorem interpAt_leading {v : List (Option ℚ)} {i : ℕ}
    (h : ∀ j, j ≤ i → vAt v j = none) : interpAt v i = none := by
  rw [interpAt_none_iff, lastKnownBefore_none_iff]
  exact h

theorem interpAt_trailing {v : List (Option ℚ)} {i j : ℕ} {a : ℚ}
    (hj : vAt v j = some a) (hlast : ∀ k, j < k → vAt v k = none)
    (hij : j < i) : interpAt v i = some a := by
  have hvi : vAt v i = none := hlast i hij
  have hlkb : lastKnownBefore v i = some (j, a) :=
    lastKnownBefore_of hj i (Nat.le_of_lt hij) (fun k hk _ => hlast k hk)
  have hfkf : firstKnownFrom v i = none := by
    rw [firstKnownFrom_none_iff]
    intro k hik
    exact hlast k (Nat.lt_of_lt_of_le hij hik)
  unfold interpAt
  rw [hvi, hlkb, hfkf]

theorem interpAt_interior {v : List (Option ℚ)} {i j k : ℕ} {a b : ℚ}
    (hj : vAt v j = some a) (hk : vAt v k = some b)
    (hji : j < i) (hik : i < k)
    (hgap : ∀ m, j < m → m < k → vAt v m = none) :
    interpAt v i =
      some (a + (b - a) * (((i : ℚ) - (j : ℚ)) / ((k : ℚ) - (j : ℚ)))) := by
  have hvi : vAt v i = none := hgap i hji hik
  have hlkb : lastKnownBefore v i = some (j, a) :=
    lastKnownBefore_of hj i (Nat.le_of_lt hji)
      (fun m hm hmi => hgap m hm (Nat.lt_of_le_of_lt hmi hik))
  have hfkf : firstKnownFrom v i = some (k, b) :=
    firstKnownFrom_of hk (Nat.le_of_lt hik)
      (fun m him hmk => hgap m (Nat.lt_of_lt_of_le hji him) hmk)
  unfold interpAt
  rw [hvi, hlkb, hfkf]

/- ----------------------------------------------------------------
   Fill lemmas (ffill, bfill and the scatter fill chain).
   ---------------------------------------------------------------- -/

theorem length_ffillGen {α : Type} (v : List (Option α)) :
    (ffillGen v).length = v.length := by
  simp [ffillGen]

theorem length_bfillGen {α : Type} (v : List (Option α)) :
    (bfillGen v).length = v.length := by
  simp [bfillGen]

theorem length_fillQ (v : List (Option ℚ)) : (fillQ v).length = v.length := by
  simp [fillQ, length_bfillGen, length_ffillGen, length_interpolateList]

theorem vAt_ffillGen {α : Type} {v : List (Option α)} {i : ℕ} (h : i < v.length) :
    vAt (ffillGen v) i =
      match vAt v i with
      | some a => some a
      | none => (lastKnownBefore v i).map (fun ja => ja.2) := by
  unfold ffillGen
  rw [vAt_rangeMap]
  simp [h]

theorem vAt_bfillGen {α : Type} {v : List (Option α)} {i : ℕ} (h : i < v.length) :
    vAt (bfillGen v) i =
      match vAt v i with
      | some a => some a
      | none => (firstKnownFrom v i).map (fun ja => ja.2) := by
  unfold bfillGen
  rw [vAt_rangeMap]
  simp [h]

theorem ffillGen_preserve {α : Type} {v : List (Option α)} {i : ℕ} {a : α}
    (h : vAt v i = some a) : vAt (ffillGen v) i = some a := by
  rw [vAt_ffillGen (vAt_some_lt h), h]

theorem bfillGen_preserve {α : Type} {v : List (Option α)} {i : ℕ} {a : α}
    (h : vAt v i = some a) : vAt (bfillGen v) i = some a := by
  rw [vAt_bfillGen (vAt_some_lt h), h]

theorem ffillGen_none_iff {α : Type} {v : List (Option α)} {i : ℕ}
    (h : i < v.length) :
    vAt (ffillGen v) i = none ↔ ∀ j, j ≤ i → vAt v j = none := by
  rw [vAt_ffillGen h]
  cases hv : vAt v i with
  | some a =>
    simp only []
    constructor
    · intro hc
      exact absurd hc (by simp)
    · intro hall
      exact absurd (hall i (Nat.le_refl i)) (by simp [hv])
  | none =>
    simp only [Option.map_eq_none']
    exact lastKnownBefore_none_iff v i

theorem fillQ_of_interp_some {v : List (Option ℚ)} {i : ℕ} {x : ℚ}
    (h : vAt (interpolateList v) i = some x) : vAt (fillQ v) i = some x := by
  unfold fillQ
  exact bfillGen_preserve (ffillGen_preserve h)

theorem fillQ_known {v : List (Option ℚ)} {i : ℕ} {a : ℚ}
    (h : vAt v i = some a) : vAt (fillQ v) i = some a := by
  refine fillQ_of_interp_some ?_
  rw [vAt_interpolateList (vAt_some_lt h)]
  exact interpAt_known h

theorem fillQ_before_first {v : List (Option ℚ)} {i k : ℕ} {b : ℚ}
    (hlead : ∀ m, m ≤ i → vAt v m = none)
    (hk : vAt v k = some b)
    (hfirst : ∀ m, m < k → vAt v m = none)
    (hi : i < v.length) :
    vAt (fillQ v) i = some b := by
  have hklen : k < v.length := vAt_some_lt hk
  have hik : i < k := by
    by_contra hc
    push_neg at hc
    exact absurd (hlead k hc) (by simp [hk])
  -- the interpolated series is still unset strictly before position k
  have hinterp_none : ∀ m, m < k → vAt (interpolateList v) m = none := by
    intro m hm
    rcases Nat.lt_or_ge m v.length with hmlen | hmlen
    · rw [vAt_interpolateList hmlen]
      exact interpAt_leading (fun j hj => hfirst j (Nat.lt_of_le_of_lt hj hm))
    · exact vAt_beyond (by rw [length_interpolateList]; exact hmlen)
  have hinterp_k : vAt (interpolateList v) k = some b := by
    rw [vAt_interpolateList hklen]
    exact interpAt_known hk
  -- forward fill leaves the leading gap unset
  have hffill_none : ∀ m, m < k → vAt (ffillGen (interpolateList v)) m = none := by
    intro m hm
    rcases Nat.lt_or_ge m (interpolateList v).length with hmlen | hmlen
    · rw [ffillGen_none_iff hmlen]
      intro j hj
      exact hinterp_none j (Nat.lt_of_le_of_lt hj hm)
    · exact vAt_beyond (by rw [length_ffillGen]; exact hmlen)
  have hffill_k : vAt (ffillGen (interpolateList v)) k = some b :=
    ffillGen_preserve hinterp_k
  -- backward fill pulls the first known value onto position i
  unfold fillQ
  have hui : vAt (ffillGen (interpolateList v)) i = none := hffill_none i hik
  have hilen : i < (ffillGen (interpolateList v)).length := by
    rw [length_ffillGen, length_interpolateList]
    exact hi
  rw [vAt_bfillGen hilen, hui]
  have : firstKnownFrom (ffillGen (interpolateList v)) i = some (k, b) :=
    firstKnownFrom_of hffill_k (Nat.le_of_lt hik)
      (fun m _ hmk => hffill_none m hmk)
  rw [this, Option.map_some']

theorem fillQ_complete {v : List (Option ℚ)} {j : ℕ} {q : ℚ}
    (hj : vAt v j = some q) :
    ∀ i, i < v.length → ∃ x, vAt (fillQ v) i = some x := by
  intro i hi
  -- the series has a first known position
  have hfsi : firstSomeIdx v ≠ none := by
    intro hc
    rw [firstSomeIdx_none_iff] at hc
    exact absurd (hc j) (by simp [hj])
  obtain ⟨⟨k, b⟩, hk⟩ := Option.ne_none_iff_exists'.mp hfsi
  obtain ⟨hkv, hkfirst⟩ := firstSomeIdx_spec hk
  by_cases hcase : ∀ m, m ≤ i → vAt v m = none
  · exact ⟨b, fillQ_before_first hcase hkv hkfirst hi⟩
  · push_neg at hcase
    obtain ⟨m, hmi, hmv⟩ := hcase
    obtain ⟨c, hc⟩ := Option.ne_none_iff_exists'.mp hmv
    have hlkb : lastKnownBefore v i ≠ none := by
      intro hnone
      rw [lastKnownBefore_none_iff] at hnone
      exact absurd (hnone m hmi) (by simp [hc])
    have hinterp : vAt (interpolateList v) i ≠ none := by
      rw [vAt_interpolateList hi, Ne, interpAt_none_iff]
      exact hlkb
    obtain ⟨x, hx⟩ := Option.ne_none_iff_exists'.mp hinterp
    exact ⟨x, fillQ_of_interp_some hx⟩

theorem fillQ_interior {v : List (Option ℚ)} {i j k : ℕ} {a b : ℚ}
    (hj : vAt v j = some a) (hk : vAt v k = some b)
    (hji : j < i) (hik : i < k)
    (hgap : ∀ m, j < m → m < k → vAt v m = none) :
    vAt (fillQ v) i =
      some (a + (b - a) * (((i : ℚ) - (j : ℚ)) / ((k : ℚ) - (j : ℚ)))) := by
  refine fillQ_of_interp_some ?_
  have hi : i < v.length := Nat.lt_trans hik (vAt_some_lt hk)
  rw [vAt_interpolateList hi]
  exact interpAt_interior hj hk hji hik hgap

theorem fillQ_trailing {v : List (Option ℚ)} {i j : ℕ} {a : ℚ}
    (hj : vAt v j = some a) (hlast : ∀ k, j < k → vAt v k = none)
    (hij : j < i) (hi : i < v.length) :
    vAt (fillQ v) i = some a := by
  refine fillQ_of_interp_some ?_
  rw [vAt_interpolateList hi]
  exact interpAt_trailing hj hlast hij

/- ----------------------------------------------------------------
   Association-list lemmas.
   ---------------------------------------------------------------- -/

theorem lookup_mem {α β : Type} [BEq α] [LawfulBEq α]
    {l : List (α × β)} {k : α} {v : β} (h : l.lookup k = some v) :
    (k, v) ∈ l := by
  induction l with
  | nil => simp [List.lookup] at h
  | cons p t ih =>
    obtain ⟨a, b⟩ := p
    rw [List.lookup_cons] at h
    by_cases hk : k == a
    · rw [hk] at h
      simp only [] at h
      have : k = a := eq_of_beq hk
      subst this
      cases h
      exact List.mem_cons_self _ _
    · rw [Bool.eq_false_iff.mpr hk] at h
      simp only [] at h
      exact List.mem_cons_of_mem _ (ih h)

theorem lookup_filter_ne {β : Type} {r : List (String × β)} {k c : String}
    (hk : k ≠ c) :
    (r.filter (fun p => decide (p.1 ≠ c))).lookup k = r.lookup k := by
  induction r with
  | nil => rfl
  | cons p t ih =>
    obtain ⟨a, b⟩ := p
    by_cases ha : a = c
    · subst ha
      rw [List.filter_cons_of_neg (by simp)]
      rw [List.lookup_cons]
      have : (k == a) = false := by
        simp only [beq_eq_false_iff_ne, ne_eq]
        exact hk
      rw [this]
      exact ih
    · rw [List.filter_cons_of_pos (by simp [ha])]
      rw [List.lookup_cons, List.lookup_cons]
      cases hka : k == a
      · simp only []
        exact ih
      · simp only []

theorem lookup_append_left {α β : Type} [BEq α] [LawfulBEq α]
    {l l' : List (α × β)} {k : α} {v : β} (h : l.lookup k = some v) :
    (l ++ l').lookup k = some v := by
  rw [List.lookup_append, h]
  rfl

theorem cellAt_append_of_isSome {r : Row} {l' : Row} {f : String}
    (h : (r.lookup f).isSome) : cellAt (r ++ l') f = cellAt r f := by
  obtain ⟨v, hv⟩ := Option.isSome_iff_exists.mp h
  unfold cellAt
  rw [lookup_append_left hv, hv]

theorem lookup_map_self {β : Type} {l : List String} {c : String}
    (f : String → β) (h : c ∈ l) :
    (l.map (fun x => (x, f x))).lookup c = some (f c) := by
  induction l with
  | nil => cases h
  | cons a t ih =>
    rw [List.map_cons, List.lookup_cons]
    by_cases hc : c = a
    · subst hc
      simp
    · have : (c == a) = false := by simp [hc]
      rw [this]
      simp only []
      exact ih (by
        cases List.mem_cons.mp h with
        | inl h1 => exact absurd h1 hc
        | inr h2 => exact h2)

/- ----------------------------------------------------------------
   Registry lemmas.
   ---------------------------------------------------------------- -/

theorem registryWF_nil : RegistryWF [] := by
  intro p hp
  cases hp

theorem updateRegistry_lookup_preserve
    {reg : Registry} (gs : List Cell) {g : Cell} {c : String}
    (h : reg.lookup g = some c) :
    (updateRegistry reg gs).lookup g = some c := by
  induction gs generalizing reg with
  | nil => exact h
  | cons x xs ih =>
    unfold updateRegistry
    by_cases hx : (reg.lookup x).isSome
    · rw [if_pos hx]
      exact ih h
    · rw [if_neg hx]
      exact ih (lookup_append_left h)

theorem updateRegistry_append (reg : Registry) (gs : List Cell) :
    ∃ t, updateRegistry reg gs = reg ++ t := by
  induction gs generalizing reg with
  | nil => exact ⟨[], by simp [updateRegistry]⟩
  | cons x xs ih =>
    unfold updateRegistry
    by_cases hx : (reg.lookup x).isSome
    · rw [if_pos hx]
      exact ih reg
    · rw [if_neg hx]
      obtain ⟨t, ht⟩ := ih (reg ++ [(x, colorOf x)])
      exact ⟨(x, colorOf x) :: t, by rw [ht]; simp⟩

theorem updateRegistry_mem_isSome {reg : Registry} {gs : List Cell} {g : Cell}
    (h : g ∈ gs) : ((updateRegistry reg gs).lookup g).isSome := by
  induction gs generalizing reg with
  | nil => cases h
  | cons x xs ih =>
    unfold updateRegistry
    rcases List.mem_cons.mp h with hg | hg
    · subst hg
      by_cases hx : (reg.lookup g).isSome
      · rw [if_pos hx]
        obtain ⟨c, hc⟩ := Option.isSome_iff_exists.mp hx
        rw [updateRegistry_lookup_preserve xs hc]
        rfl
      · rw [if_neg hx]
        have hlk : (reg ++ [(g, colorOf g)]).lookup g = some (colorOf g) := by
          rw [List.lookup_append]
          rw [Option.not_isSome_iff_eq_none.mp hx]
          simp [List.lookup]
        rw [updateRegistry_lookup_preserve xs hlk]
        rfl
    · by_cases hx : (reg.lookup x).isSome
      · rw [if_pos hx]
        exact ih hg
      · rw [if_neg hx]
        exact ih hg

theorem updateRegistry_idem {reg : Registry} {gs : List Cell}
    (h : ∀ g, g ∈ gs → (reg.lookup g).isSome) :
    updateRegistry reg gs = reg := by
  induction gs with
  | nil => rfl
  | cons x xs ih =>
    unfold updateRegistry
    rw [if_pos (h x (List.mem_cons_self x xs))]
    exact ih (fun g hg => h g (List.mem_cons_of_mem x hg))

theorem updateRegistry_wf {reg : Registry} (gs : List Cell)
    (h : RegistryWF reg) : RegistryWF (updateRegistry reg gs) := by
  induction gs generalizing reg with
  | nil => exact h
  | cons x xs ih =>
    unfold updateRegistry
    by_cases hx : (reg.lookup x).isSome
    · rw [if_pos hx]
      exact ih h
    · rw [if_neg hx]
      refine ih ?_
      intro p hp
      rcases List.mem_append.mp hp with hp1 | hp2
      · exact h p hp1
      · rcases List.mem_singleton.mp hp2 with rfl
        rfl

theorem lookup_wf_value {reg : Registry} {g : Cell} {c : String}
    (hwf : RegistryWF reg) (h : reg.lookup g = some c) : c = colorOf g :=
  hwf (g, c) (lookup_mem h)

theorem updateRegistry_lookup_of_mem {reg : Registry} {gs : List Cell} {g : Cell}
    (hwf : RegistryWF reg) (h : g ∈ gs) :
    (updateRegistry reg gs).lookup g = some (colorOf g) := by
  have hsome := @updateRegistry_mem_isSome reg gs g h
  obtain ⟨c, hc⟩ := Option.isSome_iff_exists.mp hsome
  have : c = colorOf g := lookup_wf_value (updateRegistry_wf gs hwf) hc
  rw [hc, this]

/- ----------------------------------------------------------------
   Unique and sort membership lemmas.
   ---------------------------------------------------------------- -/

theorem mem_uniqueCellsAux {x : Cell} :
    ∀ (l acc : List Cell), x ∈ uniqueCellsAux acc l ↔ x ∈ acc ∨ x ∈ l := by
  intro l
  induction l with
  | nil =>
    intro acc
    simp [uniqueCellsAux]
  | cons g gs ih =>
    intro acc
    unfold uniqueCellsAux
    by_cases hg : g ∈ acc
    · rw [if_pos hg, ih]
      constructor
      · intro h
        rcases h with h | h
        · exact Or.inl h
        · exact Or.inr (List.mem_cons_of_mem g h)
      · intro h
        rcases h with h | h
        · exact Or.inl h
        · rcases List.mem_cons.mp h with rfl | h2
          · exact Or.inl hg
          · exact Or.inr h2
    · rw [if_neg hg, ih]
      constructor
      · intro h
        rcases h with h | h
        · rcases List.mem_append.mp h with h1 | h2
          · exact Or.inl h1
          · rcases List.mem_singleton.mp h2 with rfl
            exact Or.inr (List.mem_cons_self x gs)
        · exact Or.inr (List.mem_cons_of_mem g h)
      · intro h
        rcases h with h | h
        · exact Or.inl (List.mem_append.mpr (Or.inl h))
        · rcases List.mem_cons.mp h with rfl | h2
          · exact Or.inl (List.mem_append.mpr (Or.inr (List.mem_singleton.mpr rfl)))
          · exact Or.inr h2

theorem mem_uniqueCells {x : Cell} {l : List Cell} : x ∈ uniqueCells l ↔ x ∈ l := by
  unfold uniqueCells
  rw [mem_uniqueCellsAux]
  simp

theorem mem_insertCellSorted {x y : Cell} :
    ∀ l : List Cell, x ∈ insertCellSorted y l ↔ x = y ∨ x ∈ l := by
  intro l
  induction l with
  | nil => simp [insertCellSorted]
  | cons z zs ih =>
    unfold insertCellSorted
    by_cases hz : cellLe y z
    · rw [if_pos hz]
      simp
    · rw [if_neg hz]
      constructor
      · intro h
        rcases List.mem_cons.mp h with rfl | h2
        · exact Or.inr (List.mem_cons_self x zs)
        · rcases (ih).mp h2 with h3 | h3
          · exact Or.inl h3
          · exact Or.inr (List.mem_cons_of_mem z h3)
      · intro h
        rcases h with rfl | h2
        · exact List.mem_cons_of_mem z ((ih).mpr (Or.inl rfl))
        · rcases List.mem_cons.mp h2 with rfl | h3
          · exact List.mem_cons_self x _
          · exact List.mem_cons_of_mem z ((ih).mpr (Or.inr h3))

theorem mem_sortCells {x : Cell} : ∀ {l : List Cell}, x ∈ sortCells l ↔ x ∈ l := by
  intro l
  induction l with
  | nil => simp [sortCells]
  | cons z zs ih =>
    unfold sortCells
    rw [mem_insertCellSorted, ih]
    simp

/- ----------------------------------------------------------------
   Claim theorems.
   ---------------------------------------------------------------- -/

/-- C7: for every group label g, two invocations of the color assigner
on g, in the same session or in two independently constructed sessions
(any registries satisfying the assigner's invariant, the empty registry
of a fresh session included), return the identical color string: the
color is the deterministic function colorOf of the label value alone. -/
theorem color_assigner_deterministic
    (r1 r2 : Registry) (hw1 : RegistryWF r1) (hw2 : RegistryWF r2)
    (gf1 gf2 : String) (cols1 cols2 : List String)
    (rows1 rows2 : List Row) (g : Cell)
    (res1 res2 : Registry × List Cell)
    (e1 : getColorsDF r1 gf1 cols1 rows1 = Except.ok res1)
    (e2 : getColorsDF r2 gf2 cols2 rows2 = Except.ok res2)
    (hg1 : g ∈ rows1.map (fun r => cellAt r gf1))
    (hg2 : g ∈ rows2.map (fun r => cellAt r gf2)) :
    res1.1.lookup g = some (colorOf g) ∧ res2.1.lookup g = some (colorOf g) ∧
    res1.1.lookup g = res2.1.lookup g := by
  unfold getColorsDF at e1 e2
  by_cases h1 : gf1 ∈ cols1
  · by_cases h2 : gf2 ∈ cols2
    · rw [if_pos h1] at e1
      rw [if_pos h2] at e2
      cases e1
      cases e2
      have l1 := updateRegistry_lookup_of_mem hw1 (mem_uniqueCells.mpr hg1)
      have l2 := updateRegistry_lookup_of_mem hw2 (mem_uniqueCells.mpr hg2)
      exact ⟨l1, l2, by rw [l1, l2]⟩
    · rw [if_neg h2] at e2
      cases e2
  · rw [if_neg h1] at e1
    cases e1

/-- Witness for C7: the label X colored in two fresh sessions (under
different field names and tables) receives the same string both times. -/
theorem color_assigner_deterministic_witness :
    ((getColorsDF [] "g" ["g"] [[("g", Cell.str "X")]]).toOption.getD
      ([], [])).1.lookup (Cell.str "X") = some (colorOf (Cell.str "X")) ∧
    ((getColorsDF [] "grp" ["grp", "v"]
        [[("grp", Cell.str "X"), ("v", Cell.num 1)],
         [("grp", Cell.str "Y"), ("v", Cell.num 2)]]).toOption.getD
      ([], [])).1.lookup (Cell.str "X") = some (colorOf (Cell.str "X")) ∧
    ((getColorsDF [] "g" ["g"] [[("g", Cell.str "X")]]).toOption.getD
      ([], [])).1.lookup (Cell.str "X") =
    ((getColorsDF [] "grp" ["grp", "v"]
        [[("grp", Cell.str "X"), ("v", Cell.num 1)],
         [("grp", Cell.str "Y"), ("v", Cell.num 2)]]).toOption.getD
      ([], [])).1.lookup (Cell.str "X") :=
  color_assigner_deterministic [] [] registryWF_nil registryWF_nil
    "g" "grp" ["g"] ["grp", "v"]
    [[("g", Cell.str "X")]]
    [[("grp", Cell.str "X"), ("v", Cell.num 1)],
     [("grp", Cell.str "Y"), ("v", Cell.num 2)]]
    (Cell.str "X") _ _ rfl rfl (by decide) (by decide)

/-- C8: the color registry is append-only: the assigner's registry
update only appends entries, never changing or removing an assigned
color, and both preparers grow the session registry the same way, every
stored binding surviving every later call. -/
theorem registry_append_only :
    (∀ (reg : Registry) (gs : List Cell) (g : Cell) (c : String),
        reg.lookup g = some c → (updateRegistry reg gs).lookup g = some c) ∧
    (∀ (reg : Registry) (gs : List Cell), ∃ t, updateRegistry reg gs = reg ++ t) ∧
    (∀ (s s2 : Session) (n g : String) (t0 t1 : Int) (out : List Row),
        prepareBarChartRaceData s n g t0 t1 = Except.ok (s2, out) →
        (∃ t, s2.colors = s.colors ++ t) ∧
        ∀ gc c, s.colors.lookup gc = some c → s2.colors.lookup gc = some c) ∧
    (∀ (s s2 : Session) (tf nf gf : String) (out : List Row),
        animatedScatterWithColors s tf nf gf = Except.ok (s2, out) →
        (∃ t, s2.colors = s.colors ++ t) ∧
        ∀ gc c, s.colors.lookup gc = some c → s2.colors.lookup gc = some c) := by
  refine ⟨?_, ?_, ?_, ?_⟩
  · intro reg gs g c h
    exact updateRegistry_lookup_preserve gs h
  · intro reg gs
    exact updateRegistry_append reg gs
  · intro s s2 n g t0 t1 out h
    unfold prepareBarChartRaceData at h
    dsimp only at h
    split at h
    · split at h
      · split at h
        · cases h
        · split at h
          · cases h
          · split at h
            · rename_i rc heq
              unfold getColorsDF at heq
              split at heq
              · cases heq
                cases h
                constructor
                · exact updateRegistry_append s.colors _
                · intro gc c hc
                  exact updateRegistry_lookup_preserve _ hc
              · cases heq
            · cases h
      · cases h
    · cases h
  · intro s s2 tf nf gf out h
    unfold animatedScatterWithColors at h
    split at h
    · cases h
    · split at h
      · cases h
      · rename_i rc heq
        unfold getColorsDF at heq
        split at heq
        · cases heq
          cases h
          constructor
          · exact updateRegistry_append s.colors _
          · intro gc c hc
            exact updateRegistry_lookup_preserve _ hc
        · cases heq

/-- Witness for C8: a pre-assigned binding survives an assigner update
and a full bar-race preparer call on a session holding it. -/
theorem registry_append_only_witness :
    (updateRegistry [(Cell.str "Z", "#ABCDEF")] [Cell.str "Y"]).lookup
      (Cell.str "Z") = some "#ABCDEF" ∧
    ((prepareBarChartRaceData { df := exBarDf2, colors := [(Cell.str "Z", "#ABCDEF")] }
        "name" "grp" 1980 1982).toOption.getD
      (mkSession exBarDf2, [])).1.colors.lookup (Cell.str "Z") = some "#ABCDEF" :=
  ⟨registry_append_only.1 [(Cell.str "Z", "#ABCDEF")] [Cell.str "Y"]
      (Cell.str "Z") "#ABCDEF" rfl,
   (registry_append_only.2.2.1
      { df := exBarDf2, colors := [(Cell.str "Z", "#ABCDEF")] }
      ((prepareBarChartRaceData { df := exBarDf2, colors := [(Cell.str "Z", "#ABCDEF")] }
          "name" "grp" 1980 1982).toOption.getD (mkSession exBarDf2, [])).1
      "name" "grp" 1980 1982
      ((prepareBarChartRaceData { df := exBarDf2, colors := [(Cell.str "Z", "#ABCDEF")] }
          "name" "grp" 1980 1982).toOption.getD (mkSession exBarDf2, [])).2
      rfl).2 (Cell.str "Z") "#ABCDEF" rfl⟩

/-- C10: a preparer call naming a field that is not a column of the
table fails with a KeyError identifying that field name and returns no
output: the bar-race preparer on a missing name or group field, the
scatter preparer on a missing time or name field, and the scatter color
step on a missing group field. -/
theorem missing_column_fails_fast :
    (∀ (s : Session) (n g : String) (t0 t1 : Int), n ∉ s.df.cols →
        prepareBarChartRaceData s n g t0 t1 = Except.error (keyErr n)) ∧
    (∀ (s : Session) (n g : String) (t0 t1 : Int), n ∈ s.df.cols →
        g ∉ s.df.cols →
        prepareBarChartRaceData s n g t0 t1 = Except.error (keyErr g)) ∧
    (∀ (df : DataFrame) (tf nf : String), tf ∉ df.cols →
        prepareAnimatedScatterData df tf nf = Except.error (keyErr tf)) ∧
    (∀ (df : DataFrame) (tf nf : String) (mn mx : ℚ), tf ∈ df.cols →
        nf ∉ df.cols →
        minQ (timesOf df tf) = some mn → maxQ (timesOf df tf) = some mx →
        prepareAnimatedScatterData df tf nf = Except.error (keyErr nf)) ∧
    (∀ (s : Session) (tf nf gf : String) (rows : List Row),
        prepareAnimatedScatterData s.df tf nf = Except.ok rows →
        tf ∈ s.df.cols → gf ∉ s.df.cols →
        animatedScatterWithColors s tf nf gf = Except.error (keyErr gf)) := by
  refine ⟨?_, ?_, ?_, ?_, ?_⟩
  · intro s n g t0 t1 hn
    unfold prepareBarChartRaceData
    rw [if_neg hn]
  · intro s n g t0 t1 hn hg
    unfold prepareBarChartRaceData
    rw [if_pos hn, if_neg hg]
  · intro df tf nf htf
    unfold prepareAnimatedScatterData
    rw [if_neg htf]
  · intro df tf nf mn mx htf hnf hmn hmx
    unfold prepareAnimatedScatterData
    rw [if_pos htf, hmn, hmx]
    dsimp only
    rw [if_neg hnf]
  · intro s tf nf gf rows hok htf hgf
    unfold animatedScatterWithColors
    rw [hok]
    dsimp only
    have hnotin : gf ∉ scatterLongCols s.df tf := by
      unfold scatterLongCols
      intro hc
      rcases List.mem_cons.mp hc with rfl | h2
      · exact hgf htf
      · exact hgf (List.mem_filter.mp h2).1
    unfold getColorsDF
    rw [if_neg hnotin]

/-- Witness for C10: each missing-field path observed on a concrete
table, returning the KeyError carrying the missing field's name. -/
theorem missing_column_fails_fast_witness :
    prepareBarChartRaceData (mkSession exBarDf) "nope" "grp" 1980 1981 =
      Except.error (keyErr "nope") ∧
    prepareBarChartRaceData (mkSession exBarDf) "name" "nada" 1980 1981 =
      Except.error (keyErr "nada") ∧
    prepareAnimatedScatterData exScDf2 "missing" "name" =
      Except.error (keyErr "missing") ∧
    prepareAnimatedScatterData exScDf2 "year" "absent" =
      Except.error (keyErr "absent") ∧
    animatedScatterWithColors (mkSession exScDf2) "year" "name" "gone" =
      Except.error (keyErr "gone") :=
  ⟨missing_column_fails_fast.1 (mkSession exBarDf) "nope" "grp" 1980 1981
      (by decide),
   missing_column_fails_fast.2.1 (mkSession exBarDf) "name" "nada" 1980 1981
      (by decide) (by decide),
   missing_column_fails_fast.2.2.1 exScDf2 "missing" "name" (by decide),
   missing_column_fails_fast.2.2.2.1 exScDf2 "year" "absent" 2010 2020
      (by decide) (by decide) (by decide) (by decide),
   missing_column_fails_fast.2.2.2.2 (mkSession exScDf2) "year" "name" "gone"
      exScOut2 rfl (by decide) (by decide)⟩

/- ----------------------------------------------------------------
   Column-dropping lemmas for the bar-race preparer.
   ---------------------------------------------------------------- -/

theorem pyIsNumeric_false_of_parse_none {c : String}
    (h : parseIntLit c = none) : pyIsNumeric c = false := by
  cases hx : pyIsNumeric c
  · rfl
  · exfalso
    unfold pyIsNumeric at hx
    rw [Bool.and_eq_true] at hx
    obtain ⟨hne, hall⟩ := hx
    unfold parseIntLit at h
    cases hd : c.data with
    | nil =>
      rw [hd] at hne
      simp at hne
    | cons c0 cs =>
      rw [hd] at h hall
      have hdig : c0.isDigit = true := by
        rw [List.all_cons, Bool.and_eq_true] at hall
        exact hall.1
      have hne0 : c0 ≠ '-' := by
        intro hc
        rw [hc] at hdig
        exact absurd hdig (by decide)
      rw [show parseIntLitAux (c0 :: cs) =
            (if c0 = '-' then (digitsToNat cs).map (fun n => -(n : Int))
             else (digitsToNat (c0 :: cs)).map (fun n => (n : Int))) from rfl] at h
      rw [if_neg hne0] at h
      unfold digitsToNat at h
      rw [if_neg (by simp), if_pos hall] at h
      simp at h

theorem mem_dropColumn_cols {df : DataFrame} {x c : String} (hx : x ≠ c) :
    x ∈ (dropColumn df c).cols ↔ x ∈ df.cols := by
  unfold dropColumn
  simp [List.mem_filter, hx]

theorem filter_filter_ne_of_false {c : String} {l : List String}
    (hnum : pyIsNumeric c = false) :
    (l.filter (fun x => decide (x ≠ c))).filter pyIsNumeric = l.filter pyIsNumeric := by
  induction l with
  | nil => rfl
  | cons x t ih =>
    by_cases hx : x = c
    · subst hx
      rw [List.filter_cons_of_neg (by simp), List.filter_cons_of_neg (by simp [hnum])]
      exact ih
    · rw [List.filter_cons_of_pos (by simp [hx])]
      by_cases hnx : pyIsNumeric x
      · rw [List.filter_cons_of_pos (by simp [hnx]), List.filter_cons_of_pos (by simp [hnx]), ih]
      · rw [List.filter_cons_of_neg (by simp [hnx]), List.filter_cons_of_neg (by simp [hnx])]
        exact ih

theorem originalTimeCols_dropColumn {df : DataFrame} {c : String}
    (hnum : pyIsNumeric c = false) :
    originalTimeCols (dropColumn df c) = originalTimeCols df := by
  unfold originalTimeCols dropColumn
  exact filter_filter_ne_of_false hnum

theorem cellAt_filter_ne {r : Row} {k c : String} (hk : k ≠ c) :
    cellAt (r.filter (fun p => decide (p.1 ≠ c))) k = cellAt r k := by
  unfold cellAt
  rw [lookup_filter_ne hk]

theorem barSeries_dropColumn {df : DataFrame} {c : String} {t0 t1 : Int} {r : Row}
    (hnum : pyIsNumeric c = false) :
    barSeries (dropColumn df c) t0 t1 (r.filter (fun p => decide (p.1 ≠ c))) =
      barSeries df t0 t1 r := by
  unfold barSeries
  rw [originalTimeCols_dropColumn hnum]
  refine List.map_congr_left ?_
  intro y _
  by_cases hy : toString y ∈ originalTimeCols df
  · rw [if_pos hy, if_pos hy]
    have hyne : toString y ≠ c := by
      intro hc
      have := (List.mem_filter.mp hy).2
      rw [hc, hnum] at this
      exact absurd this (by simp)
    rw [cellAt_filter_ne hyne]
  · rw [if_neg hy, if_neg hy]

theorem mem_zipWith {α β γ : Type} {f : α → β → γ} {x : γ} :
    ∀ {as : List α} {bs : List β}, x ∈ List.zipWith f as bs →
      ∃ a b, a ∈ as ∧ b ∈ bs ∧ x = f a b := by
  intro as
  induction as with
  | nil =>
    intro bs h
    simp at h
  | cons a as ih =>
    intro bs h
    cases bs with
    | nil => simp at h
    | cons b bs =>
      rw [List.zipWith_cons_cons] at h
      rcases List.mem_cons.mp h with rfl | h2
      · exact ⟨a, b, List.mem_cons_self _ _, List.mem_cons_self _ _, rfl⟩
      · obtain ⟨a', b', ha, hb, hx⟩ := ih h2
        exact ⟨a', b', List.mem_cons_of_mem a ha, List.mem_cons_of_mem b hb, hx⟩

theorem mem_attachColor {rows : List Row} {cc : List Cell} {row : Row}
    (h : row ∈ attachColor rows cc) :
    ∃ r cell, r ∈ rows ∧ row = r ++ [("color", cell)] := by
  obtain ⟨r, cell, hr, hc, hx⟩ := mem_zipWith h
  exact ⟨r, cell, hr, hx⟩

/-- C6: a column whose label cannot be parsed as a plain integer
literal (and is not the caller's name or group field) is silently
excluded by the bar-race preparer: the call behaves identically, in
output rows, colors and errors, to the same call on the table with the
column removed, and every output row carries only the melt labels, so
the excluded column never appears in the output and never makes the
call fail. -/
theorem bar_nonnumeric_column_excluded
    (s : Session) (c n g : String) (t0 t1 : Int)
    (hparse : parseIntLit c = none) (hcn : c ≠ n) (hcg : c ≠ g) :
    (prepareBarChartRaceData { df := dropColumn s.df c, colors := s.colors } n g t0 t1).map
        (fun p => (p.1.colors, p.2)) =
      (prepareBarChartRaceData s n g t0 t1).map (fun p => (p.1.colors, p.2)) ∧
    (∀ s2 out, prepareBarChartRaceData s n g t0 t1 = Except.ok (s2, out) →
        ∀ row, row ∈ out → row.map Prod.fst = [n, g, "time", "value", "color"]) := by
  have hnum : pyIsNumeric c = false := pyIsNumeric_false_of_parse_none hparse
  have hkeyed : ∀ df : DataFrame,
      (dropColumn df c).rows.map (fun r =>
        (cellAt r n, cellAt r g, interpolateList (barSeries (dropColumn df c) t0 t1 r))) =
      df.rows.map (fun r =>
        (cellAt r n, cellAt r g, interpolateList (barSeries df t0 t1 r))) := by
    intro df
    show (df.rows.map (fun r => r.filter (fun p => decide (p.1 ≠ c)))).map _ = _
    rw [List.map_map]
    refine List.map_congr_left ?_
    intro r _
    show (cellAt (r.filter (fun p => decide (p.1 ≠ c))) n,
          cellAt (r.filter (fun p => decide (p.1 ≠ c))) g,
          interpolateList (barSeries (dropColumn df c) t0 t1
            (r.filter (fun p => decide (p.1 ≠ c))))) = _
    rw [cellAt_filter_ne (Ne.symm hcn), cellAt_filter_ne (Ne.symm hcg),
        barSeries_dropColumn hnum]
  constructor
  · unfold prepareBarChartRaceData
    by_cases hn : n ∈ s.df.cols
    · rw [if_pos hn, if_pos (show n ∈ (dropColumn s.df c).cols from
        (mem_dropColumn_cols (Ne.symm hcn)).mpr hn)]
      by_cases hg : g ∈ s.df.cols
      · rw [if_pos hg, if_pos (show g ∈ (dropColumn s.df c).cols from
          (mem_dropColumn_cols (Ne.symm hcg)).mpr hg)]
        by_cases hnn : pyIsNumeric n = true
        · rw [if_pos hnn, if_pos hnn]
        · rw [if_neg hnn, if_neg hnn]
          by_cases hgg : pyIsNumeric g = true
          · rw [if_pos hgg, if_pos hgg]
          · rw [if_neg hgg, if_neg hgg]
            dsimp only
            rw [hkeyed s.df]
            cases hcol : getColorsDF s.colors g (longColsBar n g)
                ((allYearsInt t0 t1).enum.flatMap (fun iy =>
                  (s.df.rows.map (fun r =>
                    (cellAt r n, cellAt r g,
                      interpolateList (barSeries s.df t0 t1 r)))).map
                    (fun kr => barLongRow n g kr.1 kr.2.1 iy.2 (vAt kr.2.2 iy.1)))) with
            | ok rc => rfl
            | error e => rfl
      · rw [if_neg hg, if_neg (show ¬ g ∈ (dropColumn s.df c).cols from
          fun hc => hg ((mem_dropColumn_cols (Ne.symm hcg)).mp hc))]
    · rw [if_neg hn, if_neg (show ¬ n ∈ (dropColumn s.df c).cols from
        fun hc => hn ((mem_dropColumn_cols (Ne.symm hcn)).mp hc))]
  · intro s2 out hok row hrow
    unfold prepareBarChartRaceData at hok
    dsimp only at hok
    split at hok
    · split at hok
      · split at hok
        · cases hok
        · split at hok
          · cases hok
          · split at hok
            · rename_i rc heq
              cases hok
              obtain ⟨r, cell, hr, hrw⟩ := mem_attachColor hrow
              rw [List.mem_flatMap] at hr
              obtain ⟨iy, _, hr2⟩ := hr
              rw [List.mem_map] at hr2
              obtain ⟨kr2, _, hr3⟩ := hr2
              rw [hrw, ← hr3]
              rfl
            · cases hok
      · cases hok
    · cases hok

/-- Witness for C6: on the example table the Notes column is invisible
to the bar-race preparer, and a concrete output row carries exactly the
melt labels. -/
theorem bar_nonnumeric_column_excluded_witness :
    (prepareBarChartRaceData { df := dropColumn exBarDf "Notes", colors := [] }
        "name" "grp" 1980 1981).map (fun p => (p.1.colors, p.2)) =
      (prepareBarChartRaceData (mkSession exBarDf) "name" "grp" 1980 1981).map
        (fun p => (p.1.colors, p.2)) ∧
    (((prepareBarChartRaceData (mkSession exBarDf) "name" "grp" 1980 1981).toOption.getD
        (mkSession exBarDf, [])).2.getD 0 []).map Prod.fst =
      ["name", "grp", "time", "value", "color"] :=
  ⟨(bar_nonnumeric_column_excluded (mkSession exBarDf) "Notes" "name" "grp" 1980 1981
      (by decide) (by decide) (by decide)).1,
   (bar_nonnumeric_column_excluded (mkSession exBarDf) "Notes" "name" "grp" 1980 1981
      (by decide) (by decide) (by decide)).2
     ((prepareBarChartRaceData (mkSession exBarDf) "name" "grp" 1980 1981).toOption.getD
        (mkSession exBarDf, [])).1
     ((prepareBarChartRaceData (mkSession exBarDf) "name" "grp" 1980 1981).toOption.getD
        (mkSession exBarDf, [])).2
     rfl
     (((prepareBarChartRaceData (mkSession exBarDf) "name" "grp" 1980 1981).toOption.getD
        (mkSession exBarDf, [])).2.getD 0 [])
     (by decide)⟩

/- ----------------------------------------------------------------
   Range, melt-row and counting lemmas for the bar-race preparer.
   ---------------------------------------------------------------- -/

theorem length_allYearsInt (t0 t1 : Int) :
    (allYearsInt t0 t1).length = (t1 - t0 + 1).toNat := by
  unfold allYearsInt
  rw [List.length_map, List.length_range]
  congr 1
  omega

theorem mem_allYearsInt {t0 t1 t : Int} :
    t ∈ allYearsInt t0 t1 ↔ t0 ≤ t ∧ t ≤ t1 := by
  unfold allYearsInt
  rw [List.mem_map]
  constructor
  · intro h
    obtain ⟨k, hk, hkt⟩ := h
    rw [List.mem_range] at hk
    omega
  · intro h
    refine ⟨(t - t0).toNat, ?_, ?_⟩
    · rw [List.mem_range]
      omega
    · omega

theorem nodup_allYearsInt (t0 t1 : Int) : (allYearsInt t0 t1).Nodup := by
  unfold allYearsInt
  refine List.Nodup.map ?_ (List.nodup_range _)
  intro a b hab
  have : t0 + (a : Int) = t0 + (b : Int) := hab
  omega

theorem sum_map_ite_nodup {K : ℕ} {years : List Int} (hnd : years.Nodup) (t : Int) :
    ((years.map (fun y => if y = t then K else 0)).sum) = if t ∈ years then K else 0 := by
  induction years with
  | nil => simp
  | cons y ys ih =>
    rw [List.nodup_cons] at hnd
    rw [List.map_cons, List.sum_cons, ih hnd.2]
    by_cases hy : y = t
    · subst hy
      rw [if_pos rfl, if_neg hnd.1, if_pos (List.mem_cons_self y ys)]
      exact Nat.add_zero K
    · rw [if_neg hy]
      by_cases ht : t ∈ ys
      · rw [if_pos ht, if_pos (List.mem_cons_of_mem y ht)]
        simp
      · rw [if_neg ht, if_neg (by
          intro hc
          rcases List.mem_cons.mp hc with h1 | h2
          · exact hy h1.symm
          · exact ht h2)]

theorem cellAt_barLongRow_name {n g : String} {nm gp : Cell} {y : Int}
    {v : Option ℚ} {tail : Row} :
    cellAt (barLongRow n g nm gp y v ++ tail) n = nm := by
  unfold barLongRow cellAt
  rw [List.cons_append, List.lookup_cons]
  simp

theorem cellAt_barLongRow_group {n g : String} {nm gp : Cell} {y : Int}
    {v : Option ℚ} {tail : Row} (hng : n ≠ g) :
    cellAt (barLongRow n g nm gp y v ++ tail) g = gp := by
  unfold barLongRow cellAt
  rw [List.cons_append, List.lookup_cons]
  have h1 : (g == n) = false := by simp [Ne.symm hng]
  rw [h1]
  dsimp only
  rw [List.cons_append, List.lookup_cons]
  simp

theorem cellAt_barLongRow_time {n g : String} {nm gp : Cell} {y : Int}
    {v : Option ℚ} {tail : Row} (hnt : n ≠ "time") (hgt : g ≠ "time") :
    cellAt (barLongRow n g nm gp y v ++ tail) "time" = Cell.num (y : ℚ) := by
  unfold barLongRow cellAt
  rw [List.cons_append, List.lookup_cons]
  have h1 : ("time" == n) = false := by simp [Ne.symm hnt]
  rw [h1]
  dsimp only
  rw [List.cons_append, List.lookup_cons]
  have h2 : ("time" == g) = false := by simp [Ne.symm hgt]
  rw [h2]
  dsimp only
  rw [List.cons_append, List.lookup_cons]
  simp

theorem cellAt_barLongRow_value {n g : String} {nm gp : Cell} {y : Int}
    {v : Option ℚ} {tail : Row} (hnv : n ≠ "value") (hgv : g ≠ "value") :
    cellAt (barLongRow n g nm gp y v ++ tail) "value" = cellOfOpt v := by
  unfold barLongRow cellAt
  rw [List.cons_append, List.lookup_cons]
  have h1 : ("value" == n) = false := by simp [Ne.symm hnv]
  rw [h1]
  dsimp only
  rw [List.cons_append, List.lookup_cons]
  have h2 : ("value" == g) = false := by simp [Ne.symm hgv]
  rw [h2]
  dsimp only
  rw [List.cons_append, List.lookup_cons]
  have h3 : ("value" == "time") = false := by simp
  rw [h3]
  dsimp only
  rw [List.cons_append, List.lookup_cons]
  simp

theorem length_attachColor {rows : List Row} {cc : List Cell} :
    (attachColor rows cc).length = min rows.length cc.length := by
  unfold attachColor
  rw [List.length_zipWith]

theorem countP_attachColor {rows : List Row} {cc : List Cell} {p : Row → Bool}
    (hp : ∀ r, r ∈ rows → ∀ cell, p (r ++ [("color", cell)]) = p r)
    (hlen : rows.length = cc.length) :
    (attachColor rows cc).countP p = rows.countP p := by
  induction rows generalizing cc with
  | nil => simp [attachColor]
  | cons r rs ih =>
    cases cc with
    | nil => simp at hlen
    | cons c cs =>
      unfold attachColor
      rw [List.zipWith_cons_cons, List.countP_cons, List.countP_cons,
          hp r (List.mem_cons_self r rs) c]
      have hstep : (attachColor rs cs).countP p = rs.countP p :=
        ih (fun r2 hr2 cell => hp r2 (List.mem_cons_of_mem r hr2) cell)
          (by simpa using hlen)
      unfold attachColor at hstep
      rw [hstep]

theorem cellAt_barLongRow_name2 {n g : String} {nm gp : Cell} {y : Int}
    {v : Option ℚ} : cellAt (barLongRow n g nm gp y v) n = nm := by
  have h : cellAt (barLongRow n g nm gp y v ++ ([] : Row)) n = nm :=
    cellAt_barLongRow_name
  rwa [List.append_nil] at h

theorem cellAt_barLongRow_group2 {n g : String} {nm gp : Cell} {y : Int}
    {v : Option ℚ} (hng : n ≠ g) : cellAt (barLongRow n g nm gp y v) g = gp := by
  have h : cellAt (barLongRow n g nm gp y v ++ ([] : Row)) g = gp :=
    cellAt_barLongRow_group hng
  rwa [List.append_nil] at h

theorem cellAt_barLongRow_time2 {n g : String} {nm gp : Cell} {y : Int}
    {v : Option ℚ} (hnt : n ≠ "time") (hgt : g ≠ "time") :
    cellAt (barLongRow n g nm gp y v) "time" = Cell.num (y : ℚ) := by
  have h : cellAt (barLongRow n g nm gp y v ++ ([] : Row)) "time" =
      Cell.num (y : ℚ) := cellAt_barLongRow_time hnt hgt
  rwa [List.append_nil] at h

theorem cellAt_barLongRow_value2 {n g : String} {nm gp : Cell} {y : Int}
    {v : Option ℚ} (hnv : n ≠ "value") (hgv : g ≠ "value") :
    cellAt (barLongRow n g nm gp y v) "value" = cellOfOpt v := by
  have h : cellAt (barLongRow n g nm gp y v ++ ([] : Row)) "value" =
      cellOfOpt v := cellAt_barLongRow_value hnv hgv
  rwa [List.append_nil] at h

theorem countP_eq_ite_of_nodup {α : Type} [DecidableEq α] {l : List α}
    (h : l.Nodup) (a : α) :
    l.countP (fun x => decide (x = a)) = if a ∈ l then 1 else 0 := by
  induction l with
  | nil => simp
  | cons x t ih =>
    rw [List.nodup_cons] at h
    rw [List.countP_cons, ih h.2]
    by_cases hx : x = a
    · subst hx
      rw [if_neg h.1, if_pos (List.mem_cons_self x t)]
      simp
    · have hd : (decide (x = a)) = false := by simp [hx]
      rw [hd]
      simp only [Bool.false_eq_true, if_false, Nat.add_zero]
      by_cases ha : a ∈ t
      · rw [if_pos ha, if_pos (List.mem_cons_of_mem x ha)]
      · rw [if_neg ha, if_neg (by
          intro hc
          rcases List.mem_cons.mp hc with h1 | h2
          · exact hx h1.symm
          · exact ha h2)]

theorem sum_map_constant {α : Type} (l : List α) (c : ℕ) :
    (l.map (fun _ => c)).sum = l.length * c := by
  induction l with
  | nil => simp
  | cons x t ih =>
    rw [List.map_cons, List.sum_cons, ih, List.length_cons]
    ring

/-- C2: for an input table whose entity-group pairs are distinct, the
bar-race preparer's output consists of exactly one row for every
(entity, group) pair at every integer time of the closed requested
range and nothing else, hence exactly pairs times
(timeEndInclusive minus timeStart plus one) rows. -/
theorem bar_race_density
    (s : Session) (n g : String) (t0 t1 : Int) (s2 : Session) (out : List Row)
    (hok : prepareBarChartRaceData s n g t0 t1 = Except.ok (s2, out))
    (hdist : (s.df.rows.map (fun r => (cellAt r n, cellAt r g))).Nodup)
    (hng : n ≠ g) (hnt : n ≠ "time") (hgt : g ≠ "time") :
    out.length =
      (s.df.rows.map (fun r => (cellAt r n, cellAt r g))).length *
        (t1 - t0 + 1).toNat ∧
    (∀ (nm gp : Cell) (t : Int),
      out.countP (fun row => decide (cellAt row n = nm) &&
        decide (cellAt row g = gp) &&
        decide (cellAt row "time" = Cell.num (t : ℚ))) =
      if (nm, gp) ∈ s.df.rows.map (fun r => (cellAt r n, cellAt r g)) ∧
          t0 ≤ t ∧ t ≤ t1 then 1 else 0) ∧
    (∀ row, row ∈ out → ∃ t : Int,
      cellAt row "time" = Cell.num (t : ℚ) ∧ t0 ≤ t ∧ t ≤ t1 ∧
      (cellAt row n, cellAt row g) ∈
        s.df.rows.map (fun r => (cellAt r n, cellAt r g))) := by
  unfold prepareBarChartRaceData at hok
  dsimp only at hok
  split at hok
  case isFalse => cases hok
  split at hok
  case isFalse => cases hok
  split at hok
  case isTrue => cases hok
  split at hok
  case isTrue => cases hok
  split at hok
  case h_2 => cases hok
  rename_i rc heq
  unfold getColorsDF at heq
  split at heq
  case isFalse => cases heq
  cases heq
  cases hok
  set keyed := s.df.rows.map (fun r2 =>
    (cellAt r2 n, cellAt r2 g, interpolateList (barSeries s.df t0 t1 r2)))
    with hkeyed
  set longRows := (allYearsInt t0 t1).enum.flatMap (fun iy =>
    keyed.map (fun kr => barLongRow n g kr.1 kr.2.1 iy.2 (vAt kr.2.2 iy.1)))
    with hlongRows
  have hmem_long : ∀ r, r ∈ longRows →
      ∃ iy r2, iy ∈ (allYearsInt t0 t1).enum ∧ r2 ∈ s.df.rows ∧
        r = barLongRow n g (cellAt r2 n) (cellAt r2 g) iy.2
          (vAt (interpolateList (barSeries s.df t0 t1 r2)) iy.1) := by
    intro r hr
    rw [hlongRows, List.mem_flatMap] at hr
    obtain ⟨iy, hiy, hr2⟩ := hr
    rw [List.mem_map] at hr2
    obtain ⟨kr, hkr, hkr2⟩ := hr2
    rw [hkeyed, List.mem_map] at hkr
    obtain ⟨r2, hr2m, hr2e⟩ := hkr
    refine ⟨iy, r2, hiy, hr2m, ?_⟩
    rw [← hkr2, ← hr2e]
  have hlenc : longRows.length =
      ((longRows.map (fun r => cellAt r g)).map
        (mapColor (updateRegistry s.colors
          (uniqueCells (longRows.map (fun r => cellAt r g)))))).length := by
    rw [List.length_map, List.length_map]
  have hlenL : longRows.length = s.df.rows.length * (t1 - t0 + 1).toNat := by
    rw [hlongRows, List.length_flatMap]
    have hconst : ((allYearsInt t0 t1).enum.map (List.length ∘ (fun iy =>
        keyed.map (fun kr => barLongRow n g kr.1 kr.2.1 iy.2 (vAt kr.2.2 iy.1))))) =
        ((allYearsInt t0 t1).enum.map (fun _ => s.df.rows.length)) := by
      refine List.map_congr_left ?_
      intro iy _
      show (keyed.map _).length = s.df.rows.length
      rw [List.length_map, hkeyed, List.length_map]
    rw [hconst, sum_map_constant, List.enum_length, length_allYearsInt]
    exact Nat.mul_comm _ _
  refine ⟨?_, ?_, ?_⟩
  · rw [length_attachColor, ← hlenc, Nat.min_self, hlenL, List.length_map]
  · intro nm gp t
    have hp : ∀ r, r ∈ longRows → ∀ cell,
        ((fun row => decide (cellAt row n = nm) && decide (cellAt row g = gp) &&
          decide (cellAt row "time" = Cell.num (t : ℚ)))
          (r ++ [("color", cell)])) =
        ((fun row => decide (cellAt row n = nm) && decide (cellAt row g = gp) &&
          decide (cellAt row "time" = Cell.num (t : ℚ))) r) := by
      intro r hr cell
      obtain ⟨iy, r2, _, _, hre⟩ := hmem_long r hr
      subst hre
      dsimp only
      rw [cellAt_barLongRow_name, cellAt_barLongRow_group hng,
          cellAt_barLongRow_time hnt hgt, cellAt_barLongRow_name2,
          cellAt_barLongRow_group2 hng, cellAt_barLongRow_time2 hnt hgt]
    rw [countP_attachColor hp hlenc]
    rw [hlongRows, List.countP_flatMap]
    have hpoint : ((allYearsInt t0 t1).enum.map ((List.countP fun row =>
        decide (cellAt row n = nm) && decide (cellAt row g = gp) &&
        decide (cellAt row "time" = Cell.num (t : ℚ))) ∘ (fun iy =>
        keyed.map (fun kr => barLongRow n g kr.1 kr.2.1 iy.2 (vAt kr.2.2 iy.1))))) =
        ((allYearsInt t0 t1).enum.map (fun iy => if iy.2 = t then
          (if (nm, gp) ∈ s.df.rows.map (fun r => (cellAt r n, cellAt r g))
            then 1 else 0) else 0)) := by
      refine List.map_congr_left ?_
      intro iy _
      show (keyed.map (fun kr =>
        barLongRow n g kr.1 kr.2.1 iy.2 (vAt kr.2.2 iy.1))).countP _ = _
      rw [List.countP_map, hkeyed, List.countP_map]
      by_cases hyt : iy.2 = t
      · rw [if_pos hyt]
        have hcong : List.countP (((fun row =>
            decide (cellAt row n = nm) && decide (cellAt row g = gp) &&
            decide (cellAt row "time" = Cell.num (t : ℚ))) ∘
            (fun kr : Cell × Cell × List (Option ℚ) =>
              barLongRow n g kr.1 kr.2.1 iy.2 (vAt kr.2.2 iy.1))) ∘
            (fun r2 => (cellAt r2 n, cellAt r2 g,
              interpolateList (barSeries s.df t0 t1 r2)))) s.df.rows =
            List.countP (fun r2 =>
              decide ((cellAt r2 n, cellAt r2 g) = (nm, gp))) s.df.rows := by
          refine List.countP_congr ?_
          intro r2 _
          show (decide (cellAt (barLongRow n g (cellAt r2 n) (cellAt r2 g) iy.2 _) n = nm) &&
            decide (cellAt (barLongRow n g (cellAt r2 n) (cellAt r2 g) iy.2 _) g = gp) &&
            decide (cellAt (barLongRow n g (cellAt r2 n) (cellAt r2 g) iy.2 _) "time" =
              Cell.num (t : ℚ))) = true ↔ _
          rw [cellAt_barLongRow_name2, cellAt_barLongRow_group2 hng,
              cellAt_barLongRow_time2 hnt hgt, hyt]
          simp [Prod.ext_iff, and_assoc]
        rw [hcong]
        have hmapc := List.countP_map (fun pr : Cell × Cell => decide (pr = (nm, gp)))
          (fun r => (cellAt r n, cellAt r g)) s.df.rows
        rw [show (List.countP (fun r2 => decide ((cellAt r2 n, cellAt r2 g) = (nm, gp)))
          s.df.rows) = (s.df.rows.map (fun r => (cellAt r n, cellAt r g))).countP
            (fun pr => decide (pr = (nm, gp))) from hmapc.symm]
        have hcnt := countP_eq_ite_of_nodup hdist (nm, gp)
        by_cases hmm : (nm, gp) ∈ s.df.rows.map (fun r => (cellAt r n, cellAt r g))
        · rw [if_pos hmm] at hcnt
          rw [if_pos hmm]
          exact hcnt
        · rw [if_neg hmm] at hcnt
          rw [if_neg hmm]
          exact hcnt
      · rw [if_neg hyt]
        rw [List.countP_eq_zero]
        intro r2 _
        show ¬ (decide (cellAt (barLongRow n g (cellAt r2 n) (cellAt r2 g) iy.2 _) n = nm) &&
          decide (cellAt (barLongRow n g (cellAt r2 n) (cellAt r2 g) iy.2 _) g = gp) &&
          decide (cellAt (barLongRow n g (cellAt r2 n) (cellAt r2 g) iy.2 _) "time" =
            Cell.num (t : ℚ))) = true
        rw [cellAt_barLongRow_time2 hnt hgt]
        have hne : Cell.num ((iy.2 : Int) : ℚ) ≠ Cell.num ((t : Int) : ℚ) := by
          intro hc
          refine hyt ?_
          have hq := Cell.num.inj hc
          exact_mod_cast hq
        simp [hne]
    rw [hpoint]
    have henum : ((allYearsInt t0 t1).enum.map (fun iy => if iy.2 = t then
        (if (nm, gp) ∈ s.df.rows.map (fun r => (cellAt r n, cellAt r g))
          then 1 else 0) else 0)) =
        ((allYearsInt t0 t1).map (fun y => if y = t then
        (if (nm, gp) ∈ s.df.rows.map (fun r => (cellAt r n, cellAt r g))
          then 1 else 0) else 0)) := by
      conv_rhs => rw [← List.enum_map_snd (allYearsInt t0 t1)]
      rw [List.map_map]
      rfl
    rw [henum, sum_map_ite_nodup (nodup_allYearsInt t0 t1) t]
    by_cases hrange : t0 ≤ t ∧ t ≤ t1
    · rw [if_pos (mem_allYearsInt.mpr hrange)]
      by_cases hmem : (nm, gp) ∈ s.df.rows.map (fun r => (cellAt r n, cellAt r g))
      · rw [if_pos hmem, if_pos ⟨hmem, hrange⟩]
      · rw [if_neg hmem, if_neg (fun hc => hmem hc.1)]
    · rw [if_neg (fun hc => hrange (mem_allYearsInt.mp hc)),
          if_neg (fun hc => hrange hc.2)]
  · intro row hrow
    obtain ⟨r, cell, hr, hrw⟩ := mem_attachColor hrow
    obtain ⟨iy, r2, hiy, hr2, hre⟩ := hmem_long r hr
    subst hre
    subst hrw
    have hy : iy.2 ∈ allYearsInt t0 t1 := by
      rw [← List.enum_map_snd (allYearsInt t0 t1)]
      exact List.mem_map_of_mem Prod.snd hiy
    refine ⟨iy.2, cellAt_barLongRow_time hnt hgt, (mem_allYearsInt.mp hy).1,
      (mem_allYearsInt.mp hy).2, ?_⟩
    rw [cellAt_barLongRow_name, cellAt_barLongRow_group hng]
    exact List.mem_map_of_mem (fun r => (cellAt r n, cellAt r g)) hr2

/-- Witness for C2: on the two-row example over 1980 to 1982 the output
has 2 times 3 rows, the pair (A, X) appears exactly once at 1981, and a
concrete output row carries an in-range integer time and a known pair. -/
theorem bar_race_density_witness :
    ((prepareBarChartRaceData (mkSession exBarDf2) "name" "grp" 1980 1982).toOption.getD
        (mkSession exBarDf2, [])).2.length = 6 ∧
    ((prepareBarChartRaceData (mkSession exBarDf2) "name" "grp" 1980 1982).toOption.getD
        (mkSession exBarDf2, [])).2.countP (fun row =>
      decide (cellAt row "name" = Cell.str "A") &&
      decide (cellAt row "grp" = Cell.str "X") &&
      decide (cellAt row "time" = Cell.num ((1981 : Int) : ℚ))) = 1 :=
  ⟨((bar_race_density (mkSession exBarDf2) "name" "grp" 1980 1982
      ((prepareBarChartRaceData (mkSession exBarDf2) "name" "grp" 1980 1982).toOption.getD
        (mkSession exBarDf2, [])).1
      ((prepareBarChartRaceData (mkSession exBarDf2) "name" "grp" 1980 1982).toOption.getD
        (mkSession exBarDf2, [])).2
      rfl (by decide) (by decide) (by decide) (by decide)).1).trans (by decide),
   ((bar_race_density (mkSession exBarDf2) "name" "grp" 1980 1982
      ((prepareBarChartRaceData (mkSession exBarDf2) "name" "grp" 1980 1982).toOption.getD
        (mkSession exBarDf2, [])).1
      ((prepareBarChartRaceData (mkSession exBarDf2) "name" "grp" 1980 1982).toOption.getD
        (mkSession exBarDf2, [])).2
      rfl (by decide) (by decide) (by decide) (by decide)).2.1
      (Cell.str "A") (Cell.str "X") 1981).trans (by decide)⟩

theorem mem_attachColor_of_mem {rows : List Row} {cc : List Cell} {x : Row}
    (hlen : rows.length = cc.length) (hx : x ∈ rows) :
    ∃ cell, x ++ [("color", cell)] ∈ attachColor rows cc := by
  induction rows generalizing cc with
  | nil => cases hx
  | cons r rs ih =>
    cases cc with
    | nil => simp at hlen
    | cons c cs =>
      unfold attachColor
      rw [List.zipWith_cons_cons]
      rcases List.mem_cons.mp hx with rfl | hx2
      · exact ⟨c, List.mem_cons_self _ _⟩
      · obtain ⟨cell, hcell⟩ := ih (by simpa using hlen) hx2
        exact ⟨cell, List.mem_cons_of_mem _ hcell⟩

theorem bar_race_out_rows
    {s : Session} {n g : String} {t0 t1 : Int} {s2 : Session} {out : List Row}
    (hok : prepareBarChartRaceData s n g t0 t1 = Except.ok (s2, out))
    {r : Row} (hr : r ∈ s.df.rows) {i : ℕ} {y : Int}
    (hy : (allYearsInt t0 t1).get? i = some y) :
    ∃ row, row ∈ out ∧ ∃ tail : Row,
      row = barLongRow n g (cellAt r n) (cellAt r g) y
        (vAt (interpolateList (barSeries s.df t0 t1 r)) i) ++ tail := by
  unfold prepareBarChartRaceData at hok
  dsimp only at hok
  split at hok
  case isFalse => cases hok
  split at hok
  case isFalse => cases hok
  split at hok
  case isTrue => cases hok
  split at hok
  case isTrue => cases hok
  split at hok
  case h_2 => cases hok
  rename_i rc heq
  unfold getColorsDF at heq
  split at heq
  case isFalse => cases heq
  cases heq
  cases hok
  set keyed := s.df.rows.map (fun r2 =>
    (cellAt r2 n, cellAt r2 g, interpolateList (barSeries s.df t0 t1 r2)))
    with hkeyed
  set longRows := (allYearsInt t0 t1).enum.flatMap (fun iy =>
    keyed.map (fun kr => barLongRow n g kr.1 kr.2.1 iy.2 (vAt kr.2.2 iy.1)))
    with hlongRows
  have hmem : barLongRow n g (cellAt r n) (cellAt r g) y
      (vAt (interpolateList (barSeries s.df t0 t1 r)) i) ∈ longRows := by
    rw [hlongRows, List.mem_flatMap]
    refine ⟨(i, y), ?_, ?_⟩
    · rw [List.mem_enum_iff_getElem?]
      rw [← List.get?_eq_getElem?]
      exact hy
    · rw [hkeyed, List.map_map]
      exact List.mem_map_of_mem _ hr
  have hlenc : longRows.length =
      ((longRows.map (fun r => cellAt r g)).map
        (mapColor (updateRegistry s.colors
          (uniqueCells (longRows.map (fun r => cellAt r g)))))).length := by
    rw [List.length_map, List.length_map]
  obtain ⟨cell, hcell⟩ := mem_attachColor_of_mem hlenc hmem
  exact ⟨_, hcell, [("color", cell)], rfl⟩

theorem length_barSeries (df : DataFrame) (t0 t1 : Int) (r : Row) :
    (barSeries df t0 t1 r).length = (allYearsInt t0 t1).length := by
  unfold barSeries
  rw [List.length_map]

/-- C5: in the bar-race preparer, every unset position lying strictly
between two known values of its row is filled by exact linear
interpolation along the time axis between the two nearest surrounding
known values of that row. -/
theorem bar_race_interior_interpolation
    (s : Session) (n g : String) (t0 t1 : Int) (s2 : Session) (out : List Row)
    (hok : prepareBarChartRaceData s n g t0 t1 = Except.ok (s2, out))
    (hng : n ≠ g) (hnt : n ≠ "time") (hgt : g ≠ "time")
    (hnv : n ≠ "value") (hgv : g ≠ "value")
    (r : Row) (hr : r ∈ s.df.rows) (i j k : ℕ) (y : Int) (a b : ℚ)
    (hy : (allYearsInt t0 t1).get? i = some y)
    (hj : vAt (barSeries s.df t0 t1 r) j = some a)
    (hk : vAt (barSeries s.df t0 t1 r) k = some b)
    (hji : j < i) (hik : i < k)
    (hgap : ∀ m, j < m → m < k → vAt (barSeries s.df t0 t1 r) m = none) :
    ∃ row, row ∈ out ∧ cellAt row n = cellAt r n ∧ cellAt row g = cellAt r g ∧
      cellAt row "time" = Cell.num (y : ℚ) ∧
      cellAt row "value" =
        Cell.num (a + (b - a) * (((i : ℚ) - (j : ℚ)) / ((k : ℚ) - (j : ℚ)))) := by
  obtain ⟨row, hrow, tail, htail⟩ := bar_race_out_rows hok hr hy
  subst htail
  have hi : i < (barSeries s.df t0 t1 r).length :=
    Nat.lt_trans hik (vAt_some_lt hk)
  have hval : vAt (interpolateList (barSeries s.df t0 t1 r)) i =
      some (a + (b - a) * (((i : ℚ) - (j : ℚ)) / ((k : ℚ) - (j : ℚ)))) := by
    rw [vAt_interpolateList hi]
    exact interpAt_interior hj hk hji hik hgap
  refine ⟨_, hrow, cellAt_barLongRow_name, cellAt_barLongRow_group hng,
    cellAt_barLongRow_time hnt hgt, ?_⟩
  rw [cellAt_barLongRow_value hnv hgv, hval]
  rfl

/-- Witness for C5: a row known as 100 at 1980 and 200 at 2000 and unset
at 1990 is prepared with the exact midpoint 150 at 1990. -/
theorem bar_race_interior_interpolation_witness :
    ∃ row, row ∈ exBarOut ∧
      cellAt row "name" = Cell.str "A" ∧ cellAt row "grp" = Cell.str "X" ∧
      cellAt row "time" = Cell.num ((1990 : Int) : ℚ) ∧
      cellAt row "value" = Cell.num 150 := by
  have h := bar_race_interior_interpolation (mkSession exBarDf) "name" "grp"
    1978 2002
    ((prepareBarChartRaceData (mkSession exBarDf) "name" "grp" 1978 2002).toOption.getD
      (mkSession exBarDf, [])).1
    exBarOut rfl (by decide) (by decide) (by decide) (by decide) (by decide)
    (exBarDf.rows.getD 0 []) (by decide) 12 2 22 1990 100 200 (by decide)
    (by decide) (by decide) (by decide) (by decide)
    (by
      intro m h1 h2
      interval_cases m <;> decide)
  obtain ⟨row, h1, h2, h3, h4, h5⟩ := h
  refine ⟨row, h1, ?_, ?_, h4, h5.trans ?_⟩
  · rw [h2]
    decide
  · rw [h3]
    decide
  · norm_num

/-- C1 counterexample: in the bar-race output for a row known only at
1980 (value 100) and 2000 (value 200) over the requested range 1978 to
2002, the prepared value at 2001, after the row's last known value, is
the carried value 200 and not unset: the unique output row at time 2001
holds the numeric value 200, refuting the claim that positions after
the last known value remain unset. -/
theorem bar_race_boundary_counterexample :
    (prepareBarChartRaceData (mkSession exBarDf) "name" "grp" 1978 2002).toOption.map
        Prod.snd = some exBarOut ∧
    (exBarOut.filter (fun row =>
        decide (cellAt row "time" = Cell.num ((2001 : Int) : ℚ)))).map
        (fun row => cellAt row "value") = [Cell.num 200] ∧
    Cell.num 200 ≠ Cell.nan := by
  refine ⟨rfl, ?_, by decide⟩
  decide

/-- C1 (amended): in the bar-race preparer, output positions at times
before the row's first known value remain unset, but positions after
the row's last known value do not remain unset: they are filled by
carrying the row's last known value forward (the pandas default forward
limit direction of interpolate); only interior gaps are linearly
interpolated and only leading gaps stay unset. -/
theorem bar_race_boundary_amended
    (s : Session) (n g : String) (t0 t1 : Int) (s2 : Session) (out : List Row)
    (hok : prepareBarChartRaceData s n g t0 t1 = Except.ok (s2, out))
    (hng : n ≠ g) (hnt : n ≠ "time") (hgt : g ≠ "time")
    (hnv : n ≠ "value") (hgv : g ≠ "value")
    (r : Row) (hr : r ∈ s.df.rows) (i : ℕ) (y : Int)
    (hy : (allYearsInt t0 t1).get? i = some y) :
    ((∀ j, j ≤ i → vAt (barSeries s.df t0 t1 r) j = none) →
      ∃ row, row ∈ out ∧ cellAt row n = cellAt r n ∧
        cellAt row g = cellAt r g ∧ cellAt row "time" = Cell.num (y : ℚ) ∧
        cellAt row "value" = Cell.nan) ∧
    (∀ j a, vAt (barSeries s.df t0 t1 r) j = some a →
      (∀ k, j < k → vAt (barSeries s.df t0 t1 r) k = none) → j < i →
      ∃ row, row ∈ out ∧ cellAt row n = cellAt r n ∧
        cellAt row g = cellAt r g ∧ cellAt row "time" = Cell.num (y : ℚ) ∧
        cellAt row "value" = Cell.num a) := by
  have hi : i < (barSeries s.df t0 t1 r).length := by
    rw [length_barSeries]
    exact List.get?_eq_some.mp hy |>.1 |> (fun h => by
      obtain ⟨hlt, _⟩ := List.get?_eq_some.mp hy
      exact hlt)
  constructor
  · intro hlead
    obtain ⟨row, hrow, tail, htail⟩ := bar_race_out_rows hok hr hy
    subst htail
    have hval : vAt (interpolateList (barSeries s.df t0 t1 r)) i = none := by
      rw [vAt_interpolateList hi]
      exact interpAt_leading hlead
    refine ⟨_, hrow, cellAt_barLongRow_name, cellAt_barLongRow_group hng,
      cellAt_barLongRow_time hnt hgt, ?_⟩
    rw [cellAt_barLongRow_value hnv hgv, hval]
    rfl
  · intro j a hj hlast hji
    obtain ⟨row, hrow, tail, htail⟩ := bar_race_out_rows hok hr hy
    subst htail
    have hval : vAt (interpolateList (barSeries s.df t0 t1 r)) i = some a := by
      rw [vAt_interpolateList hi]
      exact interpAt_trailing hj hlast hji
    refine ⟨_, hrow, cellAt_barLongRow_name, cellAt_barLongRow_group hng,
      cellAt_barLongRow_time hnt hgt, ?_⟩
    rw [cellAt_barLongRow_value hnv hgv, hval]
    rfl

/-- Witness for C1 (amended): on the example row the prepared value at
1979, before the first known value, is unset, while the prepared value
at 2001, after the last known value, is the carried 200. -/
theorem bar_race_boundary_amended_witness :
    (∃ row, row ∈ exBarOut ∧
      cellAt row "name" = cellAt (exBarDf.rows.getD 0 []) "name" ∧
      cellAt row "grp" = cellAt (exBarDf.rows.getD 0 []) "grp" ∧
      cellAt row "time" = Cell.num ((1979 : Int) : ℚ) ∧
      cellAt row "value" = Cell.nan) ∧
    (∃ row, row ∈ exBarOut ∧
      cellAt row "name" = cellAt (exBarDf.rows.getD 0 []) "name" ∧
      cellAt row "grp" = cellAt (exBarDf.rows.getD 0 []) "grp" ∧
      cellAt row "time" = Cell.num ((2001 : Int) : ℚ) ∧
      cellAt row "value" = Cell.num 200) := by
  have hlead := (bar_race_boundary_amended (mkSession exBarDf) "name" "grp"
    1978 2002
    ((prepareBarChartRaceData (mkSession exBarDf) "name" "grp" 1978 2002).toOption.getD
      (mkSession exBarDf, [])).1
    exBarOut rfl (by decide) (by decide) (by decide) (by decide) (by decide)
    (exBarDf.rows.getD 0 []) (by decide) 1 1979 (by decide)).1
  have htrail := (bar_race_boundary_amended (mkSession exBarDf) "name" "grp"
    1978 2002
    ((prepareBarChartRaceData (mkSession exBarDf) "name" "grp" 1978 2002).toOption.getD
      (mkSession exBarDf, [])).1
    exBarOut rfl (by decide) (by decide) (by decide) (by decide) (by decide)
    (exBarDf.rows.getD 0 []) (by decide) 23 2001 (by decide)).2
  refine ⟨hlead ?_, htrail 22 200 (by decide) ?_ (by decide)⟩
  · intro j hj
    interval_cases j <;> decide
  · intro k hk
    by_cases hk25 : k < 25
    · interval_cases k <;> decide
    · refine vAt_beyond ?_
      rw [show (barSeries (mkSession exBarDf).df 1978 2002
        (exBarDf.rows.getD 0 [])).length = 25 from by decide]
      omega

/-- C9: both preparers are idempotent at the session level: a repeated
call with the same arguments on the session returned by a first
successful call returns the very same output table (rows, values and
colors) and the same session again; the session's stored input table is
never mutated. -/
theorem preparers_idempotent :
    (∀ (s s1 : Session) (n g : String) (t0 t1 : Int) (out1 : List Row),
        prepareBarChartRaceData s n g t0 t1 = Except.ok (s1, out1) →
        s1.df = s.df ∧
        prepareBarChartRaceData s1 n g t0 t1 = Except.ok (s1, out1)) ∧
    (∀ (s s1 : Session) (tf nf gf : String) (out1 : List Row),
        animatedScatterWithColors s tf nf gf = Except.ok (s1, out1) →
        s1.df = s.df ∧
        animatedScatterWithColors s1 tf nf gf = Except.ok (s1, out1)) := by
  constructor
  · intro s s1 n g t0 t1 out1 hok
    unfold prepareBarChartRaceData at hok
    dsimp only at hok
    by_cases hn : n ∈ s.df.cols
    case neg => rw [if_neg hn] at hok; cases hok
    rw [if_pos hn] at hok
    by_cases hg : g ∈ s.df.cols
    case neg => rw [if_neg hg] at hok; cases hok
    rw [if_pos hg] at hok
    by_cases hnn : pyIsNumeric n = true
    case pos => rw [if_pos hnn] at hok; cases hok
    rw [if_neg hnn] at hok
    by_cases hgg : pyIsNumeric g = true
    case pos => rw [if_pos hgg] at hok; cases hok
    rw [if_neg hgg] at hok
    cases hcol : getColorsDF s.colors g (longColsBar n g)
        ((allYearsInt t0 t1).enum.flatMap (fun iy =>
          (s.df.rows.map (fun r2 =>
            (cellAt r2 n, cellAt r2 g, interpolateList (barSeries s.df t0 t1 r2)))).map
            (fun kr => barLongRow n g kr.1 kr.2.1 iy.2 (vAt kr.2.2 iy.1)))) with
    | error e =>
      rw [hcol] at hok
      cases hok
    | ok rc =>
      rw [hcol] at hok
      cases hok
      refine ⟨rfl, ?_⟩
      unfold getColorsDF at hcol
      rw [if_pos (show g ∈ longColsBar n g by
        unfold longColsBar
        exact List.mem_cons_of_mem n (List.mem_cons_self g _))] at hcol
      cases hcol
      unfold prepareBarChartRaceData
      dsimp only
      rw [if_pos hn, if_pos hg, if_neg hnn, if_neg hgg]
      unfold getColorsDF
      rw [if_pos (show g ∈ longColsBar n g by
        unfold longColsBar
        exact List.mem_cons_of_mem n (List.mem_cons_self g _))]
      dsimp only
      rw [updateRegistry_idem (fun x hx => updateRegistry_mem_isSome hx)]
  · intro s s1 tf nf gf out1 hok
    unfold animatedScatterWithColors at hok
    cases hprep : prepareAnimatedScatterData s.df tf nf with
    | error e =>
      rw [hprep] at hok
      cases hok
    | ok rows =>
      rw [hprep] at hok
      dsimp only at hok
      cases hcol : getColorsDF s.colors gf (scatterLongCols s.df tf) rows with
      | error e =>
        rw [hcol] at hok
        cases hok
      | ok rc =>
        rw [hcol] at hok
        cases hok
        refine ⟨rfl, ?_⟩
        unfold getColorsDF at hcol
        by_cases hgl : gf ∈ scatterLongCols s.df tf
        case neg =>
          rw [if_neg hgl] at hcol
          cases hcol
        rw [if_pos hgl] at hcol
        cases hcol
        unfold animatedScatterWithColors
        dsimp only
        rw [hprep]
        dsimp only
        unfold getColorsDF
        rw [if_pos hgl]
        dsimp only
        rw [updateRegistry_idem (fun x hx => updateRegistry_mem_isSome hx)]

/-- Witness for C9: repeating each preparer call on the session
returned by a first concrete call reproduces the identical session and
output. -/
theorem preparers_idempotent_witness :
    (((prepareBarChartRaceData (mkSession exBarDf2) "name" "grp" 1980 1982).toOption.getD
        (mkSession exBarDf2, [])).1.df = (mkSession exBarDf2).df ∧
      prepareBarChartRaceData
        ((prepareBarChartRaceData (mkSession exBarDf2) "name" "grp" 1980 1982).toOption.getD
          (mkSession exBarDf2, [])).1 "name" "grp" 1980 1982 =
      Except.ok
        (((prepareBarChartRaceData (mkSession exBarDf2) "name" "grp" 1980 1982).toOption.getD
            (mkSession exBarDf2, [])).1,
         ((prepareBarChartRaceData (mkSession exBarDf2) "name" "grp" 1980 1982).toOption.getD
            (mkSession exBarDf2, [])).2)) ∧
    (((animatedScatterWithColors (mkSession exScDf2) "year" "name" "grp").toOption.getD
        (mkSession exScDf2, [])).1.df = (mkSession exScDf2).df ∧
      animatedScatterWithColors
        ((animatedScatterWithColors (mkSession exScDf2) "year" "name" "grp").toOption.getD
          (mkSession exScDf2, [])).1 "year" "name" "grp" =
      Except.ok
        (((animatedScatterWithColors (mkSession exScDf2) "year" "name" "grp").toOption.getD
            (mkSession exScDf2, [])).1,
         ((animatedScatterWithColors (mkSession exScDf2) "year" "name" "grp").toOption.getD
            (mkSession exScDf2, [])).2)) :=
  ⟨preparers_idempotent.1 (mkSession exBarDf2)
      ((prepareBarChartRaceData (mkSession exBarDf2) "name" "grp" 1980 1982).toOption.getD
        (mkSession exBarDf2, [])).1 "name" "grp" 1980 1982
      ((prepareBarChartRaceData (mkSession exBarDf2) "name" "grp" 1980 1982).toOption.getD
        (mkSession exBarDf2, [])).2 rfl,
   preparers_idempotent.2 (mkSession exScDf2)
      ((animatedScatterWithColors (mkSession exScDf2) "year" "name" "grp").toOption.getD
        (mkSession exScDf2, [])).1 "year" "name" "grp"
      ((animatedScatterWithColors (mkSession exScDf2) "year" "name" "grp").toOption.getD
        (mkSession exScDf2, [])).2 rfl⟩

/- ----------------------------------------------------------------
   Scatter-preparer lemmas.
   ---------------------------------------------------------------- -/

theorem cellAt_cons_self {c : String} {x : Cell} {rest : Row} :
    cellAt ((c, x) :: rest) c = x := by
  unfold cellAt
  rw [List.lookup_cons]
  simp

theorem cellAt_cons_ne {c k : String} {x : Cell} {rest : Row} (h : k ≠ c) :
    cellAt ((c, x) :: rest) k = cellAt rest k := by
  unfold cellAt
  rw [List.lookup_cons]
  have : (k == c) = false := by simp [h]
  rw [this]

theorem cellNum_eq_some {cell : Cell} {q : ℚ} (h : cellNum cell = some q) :
    cell = Cell.num q := by
  cases cell with
  | num q2 =>
    unfold cellNum at h
    cases h
    rfl
  | str s => simp [cellNum] at h
  | nan => simp [cellNum] at h

theorem matchRow_some_pred {rows : List Row} {tf : String} {t : Int} {r : Row}
    (h : matchRow rows tf t = some r) :
    r ∈ rows ∧ cellAt r tf = Cell.num ((t : Int) : ℚ) := by
  unfold matchRow at h
  refine ⟨List.mem_of_find?_eq_some h, ?_⟩
  have hp := List.find?_some h
  rw [decide_eq_true_eq] at hp
  exact cellNum_eq_some hp

theorem matchRow_exists {rows : List Row} {tf : String} {t : Int} {r0 : Row}
    (hr0 : r0 ∈ rows) (ht : cellAt r0 tf = Cell.num ((t : Int) : ℚ)) :
    ∃ r, matchRow rows tf t = some r := by
  unfold matchRow
  have : (rows.find? (fun r =>
      decide (cellNum (cellAt r tf) = some ((t : Int) : ℚ)))).isSome := by
    rw [List.find?_isSome]
    exact ⟨r0, hr0, by rw [ht]; simp [cellNum]⟩
  exact Option.isSome_iff_exists.mp this

theorem hasDup_eq_false_iff {l : List Cell} : hasDup l = false ↔ l.Nodup := by
  induction l with
  | nil => simp [hasDup]
  | cons x t ih =>
    unfold hasDup
    rw [Bool.or_eq_false_iff, List.nodup_cons, ih]
    constructor
    · intro h
      refine ⟨?_, h.2⟩
      intro hc
      have h1 := h.1
      have h2 : t.contains x = true := List.elem_iff.mpr hc
      rw [h1] at h2
      cases h2
    · intro h
      refine ⟨?_, h.2⟩
      cases h2 : t.contains x
      · rfl
      · exact absurd (List.elem_iff.mp h2) h.1

theorem matchRow_unique {rows : List Row} {tf : String} {t : Int} {r r0 : Row}
    (hnd : (timeCells rows tf).Nodup)
    (h : matchRow rows tf t = some r) (hr0 : r0 ∈ rows)
    (ht : cellAt r0 tf = Cell.num ((t : Int) : ℚ)) : r = r0 := by
  obtain ⟨hrm, hrt⟩ := matchRow_some_pred h
  unfold timeCells at hnd
  have hinj := List.inj_on_of_nodup_map (f := fun r => cellAt r tf) hnd
  exact hinj hrm hr0 (by rw [hrt, ht])

theorem entityBlocks_ok_mem {df : DataFrame} {tf nf : String} {allT : List Int}
    {names : List Cell} {out : List Row}
    (hok : entityBlocks df tf nf allT names = Except.ok out) {nm : Cell}
    (hnm : nm ∈ names) :
    ∃ b, entityBlock df tf nf allT nm = Except.ok b ∧ ∀ x, x ∈ b → x ∈ out := by
  induction names generalizing out with
  | nil => cases hnm
  | cons nm2 rest ih =>
    unfold entityBlocks at hok
    cases hb : entityBlock df tf nf allT nm2 with
    | error e =>
      rw [hb] at hok
      cases hok
    | ok b2 =>
      rw [hb] at hok
      dsimp only at hok
      cases hbs : entityBlocks df tf nf allT rest with
      | error e =>
        rw [hbs] at hok
        cases hok
      | ok bs =>
        rw [hbs] at hok
        dsimp only at hok
        cases hok
        rcases List.mem_cons.mp hnm with rfl | hnm2
        · exact ⟨b2, hb, fun x hx => List.mem_append.mpr (Or.inl hx)⟩
        · obtain ⟨b, hbok, hsub⟩ := ih hbs hnm2
          exact ⟨b, hbok, fun x hx => List.mem_append.mpr (Or.inr (hsub x hx))⟩

theorem vAt_listMap {α β : Type} (f : α → Option β) {l : List α} {i : ℕ} {x : α}
    (h : l.get? i = some x) : vAt (l.map f) i = f x := by
  unfold vAt
  rw [List.getD_eq_getElem?_getD, List.getElem?_map, ← List.get?_eq_getElem?, h]
  rfl

theorem vCell_map_cellOfOpt {w : List (Option ℚ)} {i : ℕ} (h : i < w.length) :
    vCell (w.map cellOfOpt) i = cellOfOpt (vAt w i) := by
  unfold vCell vAt
  rw [List.getD_eq_getElem?_getD, List.getD_eq_getElem?_getD, List.getElem?_map,
      List.getElem?_eq_getElem h]
  rfl

theorem vCell_map_getD {w : List (Option Cell)} {i : ℕ} (h : i < w.length) :
    vCell (w.map (fun o => o.getD Cell.nan)) i = (vAt w i).getD Cell.nan := by
  unfold vCell vAt
  rw [List.getD_eq_getElem?_getD, List.getD_eq_getElem?_getD, List.getElem?_map,
      List.getElem?_eq_getElem h]
  rfl

theorem get?_allYearsInt {a b t : Int} (h1 : a ≤ t) (h2 : t ≤ b) :
    (allYearsInt a b).get? (t - a).toNat = some t := by
  unfold allYearsInt
  rw [List.get?_eq_getElem?, List.getElem?_map, List.getElem?_range (by omega)]
  simp only [Option.map_some']
  congr 1
  omega

theorem mem_of_vAt_map_some {α β : Type} {f : α → Option β} {l : List α} {j : ℕ}
    {x : β} (h : vAt (l.map f) j = some x) : ∃ cell, cell ∈ l ∧ f cell = some x := by
  unfold vAt at h
  rw [List.getD_eq_getElem?_getD, List.getElem?_map] at h
  cases hj : l[j]? with
  | none => rw [hj] at h; simp at h
  | some cell =>
    rw [hj] at h
    refine ⟨cell, List.getElem?_mem hj, ?_⟩
    simpa using h

theorem minQ_le {l : List ℚ} {m x : ℚ} (h : minQ l = some m) (hx : x ∈ l) :
    m ≤ x := by
  induction l generalizing m with
  | nil => cases hx
  | cons y ys ih =>
    unfold minQ at h
    cases hm : minQ ys with
    | none =>
      rw [hm] at h
      cases h
      rcases List.mem_cons.mp hx with rfl | hx2
      · exact le_refl x
      · cases ys with
        | nil => cases hx2
        | cons z zs =>
          exfalso
          unfold minQ at hm
          cases hz : minQ zs <;> rw [hz] at hm <;> cases hm
    | some m2 =>
      rw [hm] at h
      cases h
      rcases List.mem_cons.mp hx with rfl | hx2
      · exact min_le_left _ _
      · exact le_trans (min_le_right _ _) (ih hm hx2)

theorem maxQ_ge {l : List ℚ} {m x : ℚ} (h : maxQ l = some m) (hx : x ∈ l) :
    x ≤ m := by
  induction l generalizing m with
  | nil => cases hx
  | cons y ys ih =>
    unfold maxQ at h
    cases hm : maxQ ys with
    | none =>
      rw [hm] at h
      cases h
      rcases List.mem_cons.mp hx with rfl | hx2
      · exact le_refl x
      · cases ys with
        | nil => cases hx2
        | cons z zs =>
          exfalso
          unfold maxQ at hm
          cases hz : maxQ zs <;> rw [hz] at hm <;> cases hm
    | some m2 =>
      rw [hm] at h
      cases h
      rcases List.mem_cons.mp hx with rfl | hx2
      · exact le_max_left _ _
      · exact le_trans (ih hm hx2) (le_max_right _ _)

theorem truncQ_le_of_le {mn : ℚ} {k : Int} (h : mn ≤ (k : ℚ)) : truncQ mn ≤ k := by
  unfold truncQ
  by_cases h0 : 0 ≤ mn
  · rw [if_pos h0]
    have := Int.floor_le_floor h
    rwa [Int.floor_intCast] at this
  · rw [if_neg h0]
    have := Int.ceil_le_ceil h
    rwa [Int.ceil_intCast] at this

theorem le_truncQ_of_le {mx : ℚ} {k : Int} (h : (k : ℚ) ≤ mx) : k ≤ truncQ mx := by
  unfold truncQ
  by_cases h0 : 0 ≤ mx
  · rw [if_pos h0]
    have := Int.floor_le_floor h
    rwa [Int.floor_intCast] at this
  · rw [if_neg h0]
    have := Int.ceil_le_ceil h
    rwa [Int.ceil_intCast] at this

theorem ffill_known_of {α : Type} {v : List (Option α)} {i : ℕ} {x : α}
    (h : vAt (ffillGen v) i = some x) : ∃ j, vAt v j = some x := by
  have hi : i < v.length := by
    have hlt := vAt_some_lt h
    rwa [length_ffillGen] at hlt
  rw [vAt_ffillGen hi] at h
  cases hv : vAt v i with
  | some a =>
    rw [hv] at h
    cases h
    exact ⟨i, hv⟩
  | none =>
    rw [hv] at h
    simp only [Option.map_eq_some'] at h
    obtain ⟨ja, hja, hx⟩ := h
    obtain ⟨_, hval, _⟩ := lastKnownBefore_spec hja
    exact ⟨ja.1, by rw [hval, hx]⟩

theorem objFill_all_eq {α : Type} {v : List (Option α)} {e : α}
    (hall : ∀ j x, vAt v j = some x → x = e) {j0 : ℕ} (hj0 : vAt v j0 = some e) :
    ∀ i, i < v.length → vAt (bfillGen (ffillGen v)) i = some e := by
  intro i hi
  have hallf : ∀ j x, vAt (ffillGen v) j = some x → x = e := by
    intro j x hx
    obtain ⟨j2, hj2⟩ := ffill_known_of hx
    exact hall j2 x hj2
  have hfj0 : vAt (ffillGen v) j0 = some e := ffillGen_preserve hj0
  have hilen : i < (ffillGen v).length := by
    rw [length_ffillGen]
    exact hi
  cases hfi : vAt (ffillGen v) i with
  | some x =>
    have hx := hallf i x hfi
    subst hx
    exact bfillGen_preserve hfi
  | none =>
    rw [vAt_bfillGen hilen, hfi]
    cases hfkf : firstKnownFrom (ffillGen v) i with
    | none =>
      exfalso
      rw [firstKnownFrom_none_iff] at hfkf
      have hnone : ∀ m, m ≤ i → vAt v m = none := (ffillGen_none_iff hi).mp hfi
      by_cases hj0i : j0 ≤ i
      · exact absurd (hnone j0 hj0i) (by simp [hj0])
      · exact absurd (hfkf j0 (by omega)) (by simp [hfj0])
    | some kb =>
      obtain ⟨_, hkb, _⟩ := firstKnownFrom_spec hfkf
      have hke := hallf kb.1 kb.2 hkb
      rw [Option.map_some', hke]

theorem entityBlocks_mem_structure {df : DataFrame} {tf nf : String}
    {allT : List Int} {names : List Cell} {out : List Row}
    (hok : entityBlocks df tf nf allT names = Except.ok out) {row : Row}
    (hrow : row ∈ out) :
    ∃ nm b, nm ∈ names ∧ entityBlock df tf nf allT nm = Except.ok b ∧ row ∈ b := by
  induction names generalizing out with
  | nil =>
    cases hok
    cases hrow
  | cons nm2 rest ih =>
    unfold entityBlocks at hok
    cases hb : entityBlock df tf nf allT nm2 with
    | error e =>
      rw [hb] at hok
      cases hok
    | ok b2 =>
      rw [hb] at hok
      dsimp only at hok
      cases hbs : entityBlocks df tf nf allT rest with
      | error e =>
        rw [hbs] at hok
        cases hok
      | ok bs =>
        rw [hbs] at hok
        dsimp only at hok
        cases hok
        rcases List.mem_append.mp hrow with h1 | h2
        · exact ⟨nm2, b2, List.mem_cons_self _ _, hb, h1⟩
        · obtain ⟨nm, b, hnm, hbok, hmem⟩ := ih hbs h2
          exact ⟨nm, b, List.mem_cons_of_mem _ hnm, hbok, hmem⟩

theorem entityBlock_mem_structure {df : DataFrame} {tf nf : String}
    {allT : List Int} {nm : Cell} {b : List Row}
    (hok : entityBlock df tf nf allT nm = Except.ok b) {row : Row}
    (hrow : row ∈ b) :
    ∃ it : ℕ × Int, it ∈ allT.enum ∧
      row = (tf, Cell.num ((it.2 : Int) : ℚ)) ::
        ((df.cols.filter (fun c => decide (c ≠ tf))).map (fun c =>
          (c, vCell (fillSeries (dfColNumeric df c)
            (entityCellSeries (entityRows df nf nm) tf allT c)) it.1))) ∧
      (timeCells (entityRows df nf nm) tf).Nodup := by
  unfold entityBlock at hok
  dsimp only at hok
  split at hok
  case isTrue => cases hok
  rename_i hdup
  cases hok
  rw [List.mem_map] at hrow
  obtain ⟨it, hit, hre⟩ := hrow
  refine ⟨it, hit, ?_, ?_⟩
  · rw [← hre, List.map_map]
    rfl
  · rw [Bool.not_eq_true] at hdup
    exact hasDup_eq_false_iff.mp hdup

/-- C4 counterexample: the scatter input holding entity A with value 1
at time 2010 and value 9 at the non-integer time 2012.5 prepares into a
dense table in which the value 9 appears nowhere: the observation at
2012.5 is dropped by reindexing instead of being coerced to the integer
2012, where the prepared value is the carried 1. -/
theorem scatter_time_coercion_counterexample :
    (prepareAnimatedScatterData exScDf "year" "name").toOption = some exScOut ∧
    cellAt (exScDf.rows.getD 1 []) "year" = Cell.num (mkRat 4025 2) ∧
    cellAt (exScDf.rows.getD 1 []) "x" = Cell.num 9 ∧
    exScOut.all (fun row => decide (cellAt row "x" ≠ Cell.num 9)) = true ∧
    (exScOut.filter (fun row =>
        decide (cellAt row "year" = Cell.num ((2012 : Int) : ℚ)))).map
        (fun row => cellAt row "x") = [Cell.num 1] := by
  refine ⟨rfl, by decide, by decide, by decide, by decide⟩

/-- C4 (amended): scatter input time values need not be contiguous
integers, but they are not coerced for reindexing: the output time
range runs over the integers from the truncated minimum to the
truncated maximum observed time, and an observation contributes to the
prepared output at an integer time only when its time value equals that
integer exactly; an observation at a non-integer time is dropped. -/
theorem scatter_time_coercion_amended :
    (∀ (df : DataFrame) (tf nf : String) (out : List Row) (mn mx : ℚ),
        prepareAnimatedScatterData df tf nf = Except.ok out →
        minQ (timesOf df tf) = some mn → maxQ (timesOf df tf) = some mx →
        ∀ row, row ∈ out → ∃ t : Int, cellAt row tf = Cell.num ((t : Int) : ℚ) ∧
          truncQ mn ≤ t ∧ t ≤ truncQ mx) ∧
    (∀ (rows : List Row) (tf : String) (t : Int) (r : Row),
        matchRow rows tf t = some r → cellAt r tf = Cell.num ((t : Int) : ℚ)) ∧
    (∀ (rows : List Row) (tf : String) (t : Int) (r : Row),
        (∀ z : Int, cellAt r tf ≠ Cell.num ((z : Int) : ℚ)) →
        matchRow rows tf t ≠ some r) := by
  refine ⟨?_, ?_, ?_⟩
  · intro df tf nf out mn mx hok hmn hmx row hrow
    unfold prepareAnimatedScatterData at hok
    split at hok
    case isFalse => cases hok
    rw [hmn, hmx] at hok
    dsimp only at hok
    split at hok
    case isFalse => cases hok
    obtain ⟨nm, b, hnm, hbok, hmem⟩ := entityBlocks_mem_structure hok hrow
    obtain ⟨it, hit, hre, _⟩ := entityBlock_mem_structure hbok hmem
    refine ⟨it.2, ?_, ?_, ?_⟩
    · rw [hre]
      exact cellAt_cons_self
    · have hy : it.2 ∈ allYearsInt (truncQ mn) (truncQ mx) := by
        rw [← List.enum_map_snd (allYearsInt (truncQ mn) (truncQ mx))]
        exact List.mem_map_of_mem Prod.snd hit
      exact (mem_allYearsInt.mp hy).1
    · have hy : it.2 ∈ allYearsInt (truncQ mn) (truncQ mx) := by
        rw [← List.enum_map_snd (allYearsInt (truncQ mn) (truncQ mx))]
        exact List.mem_map_of_mem Prod.snd hit
      exact (mem_allYearsInt.mp hy).2
  · intro rows tf t r h
    exact (matchRow_some_pred h).2
  · intro rows tf t r hz hc
    exact hz t (matchRow_some_pred hc).2

/-- Witness for C4 (amended): on a concrete table the reindexer matches
the row whose time equals 2010 exactly, and the first output row of the
two-observation example carries an integer time within the truncated
bounds. -/
theorem scatter_time_coercion_amended_witness :
    cellAt (exScDf2.rows.getD 0 []) "year" = Cell.num ((2010 : Int) : ℚ) ∧
    (∃ t : Int, cellAt (exScOut2.getD 0 []) "year" = Cell.num ((t : Int) : ℚ) ∧
      truncQ 2010 ≤ t ∧ t ≤ truncQ 2020) :=
  ⟨scatter_time_coercion_amended.2.1 exScDf2.rows "year" 2010
      (exScDf2.rows.getD 0 []) (by decide),
   scatter_time_coercion_amended.1 exScDf2 "year" "name" exScOut2 2010 2020
      rfl (by decide) (by decide) (exScOut2.getD 0 []) (by decide)⟩

theorem cellAt_map_self {l : List String} {c : String} (F : String → Cell)
    (h : c ∈ l) : cellAt (l.map (fun x => (x, F x))) c = F c := by
  unfold cellAt
  rw [lookup_map_self F h]
  rfl

theorem cellNonNan_of_ne {e : Cell} (h : e ≠ Cell.nan) : cellNonNan e = some e := by
  cases e with
  | str s => rfl
  | num q => rfl
  | nan => exact absurd rfl h

/-- C3 counterexample: the scatter input holding entity A with a single
complete observation at the non-integer time 2010.5 prepares into a
table whose only row for A (at time 2010) has the numeric field x
unset, although the entity has an observation and x is a numeric
column: the guarantee that an entity with at least one observation has
no unset numeric fields fails. -/
theorem scatter_fill_guarantee_counterexample :
    (prepareAnimatedScatterData exScDf3 "year" "name").toOption = some exScOut3 ∧
    (entityRows exScDf3 "name" (Cell.str "A")).length = 1 ∧
    dfColNumeric exScDf3 "x" = true ∧
    exScOut3.length = 1 ∧
    cellAt (exScOut3.getD 0 []) "year" = Cell.num ((2010 : Int) : ℚ) ∧
    cellAt (exScOut3.getD 0 []) "x" = Cell.nan :=
  ⟨rfl, by decide, by decide, by decide, by decide, by decide⟩

/-- C3 (amended): in the scatter preparer, unset numeric fields are
filled first by linear interpolation, then by forward fill, then by
backward fill (the fillSeries chain), and every entity with at least
one observation at an exactly-integer time has a row at every integer
time of the truncated range with no unset numeric fields; values before
the first known observation carry the first known value (backward
fill), and interior gaps are linearly interpolated.  An entity whose
observations all sit at non-integer times is not covered: its rows are
dropped by reindexing and its numeric fields stay unset. -/
theorem scatter_fill_guarantee_amended
    (df : DataFrame) (tf nf : String) (out : List Row)
    (hok : prepareAnimatedScatterData df tf nf = Except.ok out)
    (mn mx : ℚ)
    (hmn : minQ (timesOf df tf) = some mn) (hmx : maxQ (timesOf df tf) = some mx)
    (e : Cell) (he : e ≠ Cell.nan) (htfnf : tf ≠ nf)
    (hnfobj : dfColNumeric df nf = false)
    (r0 : Row) (hr0 : r0 ∈ entityRows df nf e) (k : Int)
    (htime : cellAt r0 tf = Cell.num ((k : Int) : ℚ))
    (hvals : ∀ c, c ∈ df.cols → c ≠ tf → dfColNumeric df c = true →
      ∃ q : ℚ, cellAt r0 c = Cell.num q) :
    (∀ t : Int, truncQ mn ≤ t → t ≤ truncQ mx →
      ∃ row, row ∈ out ∧ cellAt row tf = Cell.num ((t : Int) : ℚ) ∧
        cellAt row nf = e ∧
        ∀ c, c ∈ df.cols → c ≠ tf → dfColNumeric df c = true →
          cellAt row c = vCell (fillSeries true (entityCellSeries (entityRows df nf e)
              tf (allYearsInt (truncQ mn) (truncQ mx)) c)) (t - truncQ mn).toNat ∧
          ∃ q : ℚ, cellAt row c = Cell.num q) ∧
    (∀ (cells : List Cell) (i k2 : ℕ) (b : ℚ),
      (∀ m, m ≤ i → vAt (cells.map cellNum) m = none) →
      vAt (cells.map cellNum) k2 = some b →
      (∀ m, m < k2 → vAt (cells.map cellNum) m = none) →
      i < cells.length →
      vCell (fillSeries true cells) i = Cell.num b) ∧
    (∀ (cells : List Cell) (i j2 k2 : ℕ) (a b : ℚ),
      vAt (cells.map cellNum) j2 = some a →
      vAt (cells.map cellNum) k2 = some b →
      j2 < i → i < k2 →
      (∀ m, j2 < m → m < k2 → vAt (cells.map cellNum) m = none) →
      vCell (fillSeries true cells) i =
        Cell.num (a + (b - a) * (((i : ℚ) - (j2 : ℚ)) / ((k2 : ℚ) - (j2 : ℚ))))) := by
  refine ⟨?_, ?_, ?_⟩
  · intro t ht1 ht2
    unfold prepareAnimatedScatterData at hok
    split at hok
    case isFalse => cases hok
    rw [hmn, hmx] at hok
    dsimp only at hok
    split at hok
    case isFalse => cases hok
    rename_i htf hnf
    have hr0row : r0 ∈ df.rows := (List.mem_filter.mp hr0).1
    have hr0nf : cellAt r0 nf = e := by
      have hd := (List.mem_filter.mp hr0).2
      rwa [decide_eq_true_eq] at hd
    have he_names : e ∈ namesOf df nf := by
      unfold namesOf
      rw [mem_sortCells, mem_uniqueCells, List.mem_filter]
      refine ⟨List.mem_map.mpr ⟨r0, hr0row, hr0nf⟩, ?_⟩
      rw [decide_eq_true_eq]
      exact he
    obtain ⟨b, hbok, hsub⟩ := entityBlocks_ok_mem hok he_names
    unfold entityBlock at hbok
    dsimp only at hbok
    split at hbok
    case isTrue => cases hbok
    rename_i hdup
    cases hbok
    have hnd : (timeCells (entityRows df nf e) tf).Nodup := by
      rw [Bool.not_eq_true] at hdup
      exact hasDup_eq_false_iff.mp hdup
    -- bounds for the known observation time k
    have hkmem : ((k : Int) : ℚ) ∈ timesOf df tf := by
      unfold timesOf
      rw [List.mem_filterMap]
      exact ⟨r0, hr0row, by rw [htime]; rfl⟩
    have hk1 : truncQ mn ≤ k := truncQ_le_of_le (minQ_le hmn hkmem)
    have hk2 : k ≤ truncQ mx := le_truncQ_of_le (maxQ_ge hmx hkmem)
    have hgetk : (allYearsInt (truncQ mn) (truncQ mx)).get? (k - truncQ mn).toNat =
        some k := get?_allYearsInt hk1 hk2
    have hgett : (allYearsInt (truncQ mn) (truncQ mx)).get? (t - truncQ mn).toNat =
        some t := get?_allYearsInt ht1 ht2
    have hmemenum : ((t - truncQ mn).toNat, t) ∈
        (allYearsInt (truncQ mn) (truncQ mx)).enum := by
      rw [List.mem_enum_iff_getElem?, ← List.get?_eq_getElem?]
      exact hgett
    -- the matched row at time k is r0
    obtain ⟨r1, hr1⟩ := matchRow_exists hr0 htime
    have hr1r0 : r1 = r0 := matchRow_unique hnd hr1 hr0 htime
    rw [hr1r0] at hr1
    have hidxlt : (t - truncQ mn).toNat <
        (allYearsInt (truncQ mn) (truncQ mx)).length := by
      rw [length_allYearsInt]
      omega
    have hserieslen : ∀ c, (entityCellSeries (entityRows df nf e) tf
        (allYearsInt (truncQ mn) (truncQ mx)) c).length =
        (allYearsInt (truncQ mn) (truncQ mx)).length := by
      intro c
      unfold entityCellSeries
      rw [List.length_map]
    have hseriesget : ∀ c, (entityCellSeries (entityRows df nf e) tf
        (allYearsInt (truncQ mn) (truncQ mx)) c).get? (k - truncQ mn).toNat =
        some (cellAt r0 c) := by
      intro c
      unfold entityCellSeries
      rw [List.get?_eq_getElem?, List.getElem?_map, ← List.get?_eq_getElem?, hgetk,
          Option.map_some']
      rw [hr1]
    refine ⟨(tf, Cell.num ((t : Int) : ℚ)) ::
      (df.cols.filter (fun c => decide (c ≠ tf))).map (fun c =>
        (c, vCell (fillSeries (dfColNumeric df c)
          (entityCellSeries (entityRows df nf e) tf
            (allYearsInt (truncQ mn) (truncQ mx)) c)) (t - truncQ mn).toNat)),
      hsub _ ?_, cellAt_cons_self, ?_, ?_⟩
    · rw [List.mem_map]
      refine ⟨((t - truncQ mn).toNat, t), hmemenum, ?_⟩
      rw [List.map_map]
      rfl
    · -- the name cell of the row is the entity key
      rw [cellAt_cons_ne (Ne.symm htfnf)]
      have hnfout : nf ∈ df.cols.filter (fun c => decide (c ≠ tf)) := by
        rw [List.mem_filter]
        exact ⟨hnf, by rw [decide_eq_true_eq]; exact Ne.symm htfnf⟩
      rw [cellAt_map_self _ hnfout, hnfobj]
      show vCell ((bfillGen (ffillGen ((entityCellSeries (entityRows df nf e) tf
        (allYearsInt (truncQ mn) (truncQ mx)) nf).map cellNonNan))).map
          (fun o => o.getD Cell.nan)) (t - truncQ mn).toNat = e
      have hallv : ∀ j x, vAt ((entityCellSeries (entityRows df nf e) tf
          (allYearsInt (truncQ mn) (truncQ mx)) nf).map cellNonNan) j = some x →
          x = e := by
        intro j x hx
        obtain ⟨cell, hcm, hcv⟩ := mem_of_vAt_map_some hx
        have hxc : cell = x := by
          cases cell <;> simp [cellNonNan] at hcv <;> rw [hcv]
        unfold entityCellSeries at hcm
        rw [List.mem_map] at hcm
        obtain ⟨t2, _, ht2⟩ := hcm
        cases hmr : matchRow (entityRows df nf e) tf t2 with
        | some r2 =>
          rw [hmr] at ht2
          have hr2m := (matchRow_some_pred hmr).1
          have hr2nf : cellAt r2 nf = e := by
            have hd := (List.mem_filter.mp hr2m).2
            rwa [decide_eq_true_eq] at hd
          rw [← hxc, ← ht2]
          exact hr2nf
        | none =>
          rw [hmr] at ht2
          exfalso
          have hcell : cell = Cell.nan := ht2.symm
          rw [hcell] at hcv
          cases hcv
      have hknown : vAt ((entityCellSeries (entityRows df nf e) tf
          (allYearsInt (truncQ mn) (truncQ mx)) nf).map cellNonNan)
          (k - truncQ mn).toNat = some e := by
        rw [vAt_listMap cellNonNan (hseriesget nf), hr0nf]
        exact cellNonNan_of_ne he
      have hfilled := objFill_all_eq hallv hknown (t - truncQ mn).toNat
        (by rw [List.length_map, hserieslen]; exact hidxlt)
      rw [vCell_map_getD (by
        rw [length_bfillGen, length_ffillGen, List.length_map, hserieslen]
        exact hidxlt)]
      rw [hfilled]
      rfl
    · -- numeric columns: value given by the fill chain and never unset
      intro c hc hctf hcnum
      have hcout : c ∈ df.cols.filter (fun c2 => decide (c2 ≠ tf)) := by
        rw [List.mem_filter]
        exact ⟨hc, by rw [decide_eq_true_eq]; exact hctf⟩
      rw [cellAt_cons_ne hctf, cellAt_map_self _ hcout, hcnum]
      refine ⟨rfl, ?_⟩
      obtain ⟨q, hq⟩ := hvals c hc hctf hcnum
      have hknown : vAt ((entityCellSeries (entityRows df nf e) tf
          (allYearsInt (truncQ mn) (truncQ mx)) c).map cellNum)
          (k - truncQ mn).toNat = some q := by
        rw [vAt_listMap cellNum (hseriesget c), hq]
        rfl
      obtain ⟨x, hx⟩ := fillQ_complete hknown (t - truncQ mn).toNat
        (by rw [List.length_map, hserieslen]; exact hidxlt)
      refine ⟨x, ?_⟩
      show vCell ((fillQ ((entityCellSeries (entityRows df nf e) tf
        (allYearsInt (truncQ mn) (truncQ mx)) c).map cellNum)).map cellOfOpt)
          (t - truncQ mn).toNat = Cell.num x
      rw [vCell_map_cellOfOpt (by
        rw [length_fillQ, List.length_map, hserieslen]
        exact hidxlt)]
      rw [hx]
      rfl
  · intro cells i k2 b hlead hk hfirst hilen
    show vCell ((fillQ (cells.map cellNum)).map cellOfOpt) i = Cell.num b
    rw [vCell_map_cellOfOpt (by
      rw [length_fillQ, List.length_map]
      exact hilen)]
    rw [fillQ_before_first hlead hk hfirst (by rw [List.length_map]; exact hilen)]
    rfl
  · intro cells i j2 k2 a b hj hk hji hik hgap
    have hilen : i < cells.length := by
      have hkl := vAt_some_lt hk
      rw [List.length_map] at hkl
      omega
    show vCell ((fillQ (cells.map cellNum)).map cellOfOpt) i =
      Cell.num (a + (b - a) * (((i : ℚ) - (j2 : ℚ)) / ((k2 : ℚ) - (j2 : ℚ))))
    rw [vCell_map_cellOfOpt (by
      rw [length_fillQ, List.length_map]
      exact hilen)]
    rw [fillQ_interior hj hk hji hik hgap]
    rfl

/-- Witness for C3 (amended): entity A with x known as 10 at 2010 and
30 at 2020 gets a row at 2015 with no unset numeric field, the midpoint
value 20 at position 5 of its filled series, and a leading gap in a
numeric series is backward-filled with the first known value. -/
theorem scatter_fill_guarantee_amended_witness :
    (∃ row, row ∈ exScOut2 ∧ cellAt row "year" = Cell.num ((2015 : Int) : ℚ) ∧
      cellAt row "name" = Cell.str "A" ∧
      ∀ c, c ∈ exScDf2.cols → c ≠ "year" → dfColNumeric exScDf2 c = true →
        cellAt row c = vCell (fillSeries true
          (entityCellSeries (entityRows exScDf2 "name" (Cell.str "A")) "year"
            (allYearsInt (truncQ 2010) (truncQ 2020)) c)) ((2015 - truncQ 2010).toNat) ∧
        ∃ q : ℚ, cellAt row c = Cell.num q) ∧
    vCell (fillSeries true [Cell.nan, Cell.num 5]) 0 = Cell.num 5 ∧
    vCell (fillSeries true
      (entityCellSeries (entityRows exScDf2 "name" (Cell.str "A")) "year"
        (allYearsInt 2010 2020) "x")) 5 = Cell.num 20 := by
  have hthm := scatter_fill_guarantee_amended exScDf2 "year" "name" exScOut2
    rfl 2010 2020 (by decide) (by decide) (Cell.str "A") (by decide) (by decide)
    (by decide) (exScDf2.rows.getD 0 []) (by decide) 2010 (by decide)
    (by
      intro c hc h1 h2
      fin_cases hc
      · exact absurd rfl h1
      · exact absurd h2 (by decide)
      · exact absurd h2 (by decide)
      · exact ⟨10, by decide⟩)
  refine ⟨?_, ?_, ?_⟩
  · exact hthm.1 2015 (by
      rw [show truncQ 2010 = 2010 from by norm_num [truncQ]]
      omega)
      (by
      rw [show truncQ 2020 = 2020 from by norm_num [truncQ]]
      omega)
  · exact hthm.2.1 [Cell.nan, Cell.num 5] 0 1 5
      (by
        intro m hm
        interval_cases m
        decide)
      (by decide)
      (by
        intro m hm
        interval_cases m
        decide)
      (by decide)
  · refine (hthm.2.2
      (entityCellSeries (entityRows exScDf2 "name" (Cell.str "A")) "year"
        (allYearsInt 2010 2020) "x") 5 0 10 10 30
      (by decide) (by decide) (by omega) (by omega)
      (by
        intro m h1 h2
        interval_cases m <;> decide)).trans ?_
    congr 1
    norm_num
